import Mathlib

/-!
Verification of the LLM-response JSON extraction / repair pipeline
(`extract_json_from_llm_response` in `src/cloud/oracle/main.py`) and the
path-acceptance / batch-status logic (`PathAcceptanceService` in
`src/cloud/content-generator/path_acceptance.py`).

The Python code is shallowly embedded: texts are `List Char`, the decoded
documents are the `Json` inductive below, the datastore is an explicit
record of tables, and every repair scan / regex substitution of the source
is translated to an executable character-level function.

Modelling boundaries (facts of the embedding, stated once here):
* JSON numbers are modelled as integers; inputs containing fractional or
  exponent-form numbers are rejected by the embedded decoder rather than
  misread, so no theorem below speaks about them.
* Python dictionaries decoded from JSON are modelled as association lists
  preserving insertion order (duplicate keys are kept, Python keeps the
  last; no input below has duplicate keys).
* `str.strip`, the `\s` class of the repair regexes, and the decoder's
  whitespace are modelled over their ASCII fragments.
-/

namespace Course

/-- Whitespace accepted by the JSON decoder (`json.loads`): space, tab,
newline, carriage return. -/
def isJsonWs (c : Char) : Bool := [' ', '\t', '\n', '\r'].contains c

/-- Whitespace class `\s` of the repair regexes and of `str.strip`
(ASCII fragment: space, tab, newline, carriage return, vertical tab, form feed). -/
def isReWs (c : Char) : Bool := [' ', '\t', '\n', '\r', '\x0b', '\x0c'].contains c

/-- ASCII decimal digit. -/
def isDigit (c : Char) : Bool := 48 ≤ c.toNat && c.toNat ≤ 57

/-- A decoded JSON document (the `ParsedDocument` of the spec): the result of
`json.loads` on the model's fragment. -/
inductive Json where
  | null : Json
  | bool (b : Bool) : Json
  | num (n : Int) : Json
  | str (s : String) : Json
  | arr (elems : List Json) : Json
  | obj (members : List (String × Json)) : Json

/-- Drop leading JSON whitespace, as the decoder does between tokens. -/
def skipWsL : List Char → List Char
  | c :: cs => if isJsonWs c then skipWsL cs else c :: cs
  | [] => []

/-- Value of a hex digit, if `c` is one. -/
def hexVal (c : Char) : Option Nat :=
  let v := c.toNat
  if 48 ≤ v && v ≤ 57 then some (v - 48)
  else if 97 ≤ v && v ≤ 102 then some (v - 87)
  else if 65 ≤ v && v ≤ 70 then some (v - 55)
  else none

/-- Read exactly four hex digits (the `XXXX` of a `\uXXXX` escape). -/
def hex4 : List Char → Option (Nat × List Char)
  | a :: b :: c :: d :: r =>
    match hexVal a, hexVal b, hexVal c, hexVal d with
    | some x, some y, some z, some w => some (((x * 16 + y) * 16 + z) * 16 + w, r)
    | _, _, _, _ => none
  | _ => none

/-- The single-character string escapes of the JSON grammar. -/
def escChar (c : Char) : Option Char :=
  if c = '"' then some '"'
  else if c = '\\' then some '\\'
  else if c = '/' then some '/'
  else if c = 'b' then some '\x08'
  else if c = 'f' then some '\x0c'
  else if c = 'n' then some '\n'
  else if c = 'r' then some '\r'
  else if c = 't' then some '\t'
  else none

/-- Digits of an unsigned JSON integer: at least one digit, no leading zero
(except `0` itself), and not followed by `.`, `e` or `E` (fractional and
exponent numbers are outside the model and rejected). -/
def parseNat (cs : List Char) : Option (Nat × List Char) :=
  match cs.span isDigit with
  | (ds, rest) =>
    if ds.isEmpty then none
    else if ds.length > 1 && ds.headD '0' == '0' then none
    else match rest with
      | '.' :: _ => none
      | 'e' :: _ => none
      | 'E' :: _ => none
      | _ => some (ds.foldl (fun acc c => 10 * acc + (c.toNat - 48)) 0, rest)

mutual

/-- One JSON value (after optional whitespace), returning the remainder;
fueled recursive descent mirroring the decoder's grammar. -/
def parseValue (fuel : Nat) (cs : List Char) : Option (Json × List Char) :=
  match fuel with
  | 0 => none
  | fuel + 1 =>
    match skipWsL cs with
    | '{' :: r =>
      (match skipWsL r with
       | '}' :: r2 => some (Json.obj [], r2)
       | r2 => parseMembers fuel r2 [])
    | '[' :: r =>
      (match skipWsL r with
       | ']' :: r2 => some (Json.arr [], r2)
       | r2 => parseElems fuel r2 [])
    | '"' :: r =>
      (match parseStr fuel r [] with
       | some (s, r2) => some (Json.str s, r2)
       | none => none)
    | 't' :: 'r' :: 'u' :: 'e' :: r => some (Json.bool true, r)
    | 'f' :: 'a' :: 'l' :: 's' :: 'e' :: r => some (Json.bool false, r)
    | 'n' :: 'u' :: 'l' :: 'l' :: r => some (Json.null, r)
    | '-' :: r =>
      (match parseNat r with
       | some (n, r2) => some (Json.num (-(n : Int)), r2)
       | none => none)
    | c :: r =>
      if isDigit c then
        match parseNat (c :: r) with
        | some (n, r2) => some (Json.num (n : Int), r2)
        | none => none
      else none
    | [] => none

/-- Members of an object after the opening brace (non-empty case). -/
def parseMembers (fuel : Nat) (cs : List Char) (acc : List (String × Json)) :
    Option (Json × List Char) :=
  match fuel with
  | 0 => none
  | fuel + 1 =>
    match cs with
    | '"' :: r =>
      (match parseStr fuel r [] with
       | some (k, r1) =>
         (match skipWsL r1 with
          | ':' :: r2 =>
            (match parseValue fuel r2 with
             | some (v, r3) =>
               (match skipWsL r3 with
                | ',' :: r4 => parseMembers fuel (skipWsL r4) (acc ++ [(k, v)])
                | '}' :: r4 => some (Json.obj (acc ++ [(k, v)]), r4)
                | _ => none)
             | none => none)
          | _ => none)
       | none => none)
    | _ => none

/-- Elements of an array after the opening bracket (non-empty case). -/
def parseElems (fuel : Nat) (cs : List Char) (acc : List Json) :
    Option (Json × List Char) :=
  match fuel with
  | 0 => none
  | fuel + 1 =>
    match parseValue fuel cs with
    | some (v, r1) =>
      (match skipWsL r1 with
       | ',' :: r2 => parseElems fuel r2 (acc ++ [v])
       | ']' :: r2 => some (Json.arr (acc ++ [v]), r2)
       | _ => none)
    | none => none

/-- Body of a string literal after the opening quote: strict mode, so raw
control characters are rejected; escapes and surrogate pairs are decoded. -/
def parseStr (fuel : Nat) (cs : List Char) (acc : List Char) :
    Option (String × List Char) :=
  match fuel with
  | 0 => none
  | fuel + 1 =>
    match cs with
    | [] => none
    | '"' :: r => some (⟨acc.reverse⟩, r)
    | '\\' :: e :: r =>
      if e = 'u' then
        match hex4 r with
        | some (code, r1) =>
          if 0xD800 ≤ code && code ≤ 0xDBFF then
            match r1 with
            | '\\' :: 'u' :: r2 =>
              (match hex4 r2 with
               | some (low, r3) =>
                 if 0xDC00 ≤ low && low ≤ 0xDFFF then
                   parseStr fuel r3
                     (Char.ofNat (0x10000 + (code - 0xD800) * 0x400 + (low - 0xDC00)) :: acc)
                 else none
               | none => none)
            | _ => none
          else if 0xDC00 ≤ code && code ≤ 0xDFFF then none
          else parseStr fuel r1 (Char.ofNat code :: acc)
        | none => none
      else
        match escChar e with
        | some c => parseStr fuel r (c :: acc)
        | none => none
    | c :: r => if c.toNat < 0x20 then none else parseStr fuel r (c :: acc)

end

/-- The embedded `json.loads`: one value, then only whitespace may remain. -/
def jsonLoads (cs : List Char) : Option Json :=
  match parseValue (2 * cs.length + 8) cs with
  | some (v, rest) =>
    (match skipWsL rest with
     | [] => some v
     | _ => none)
  | none => none

/-! ### Step 1: markdown fence handling

The source first tests `"```" in response_text`; on a hit it runs
`re.search(r'```(?:json)?\s*\n?(.*?)\n?```', text, re.DOTALL)` and takes
`group(1).strip()`, falling back to deleting every occurrence of
` ```json ` and then ` ``` ` and stripping.  The search is embedded with
explicit backtracking in the regex engine's preference order: leftmost
start, `(?:json)?` greedy, `\s*` greedy, `\n?` greedy, group lazy. -/

/-- Does the list start with three backticks? -/
def tripleHead : List Char → Bool
  | '`' :: '`' :: '`' :: _ => true
  | _ => false

/-- Does the text contain a triple backtick anywhere? -/
def containsTriple : List Char → Bool
  | [] => false
  | c :: r => tripleHead (c :: r) || containsTriple r

/-- Can the closing part `\n?```` of the fence pattern match here? -/
def closesHere (rest : List Char) : Bool :=
  (match rest with
   | '\n' :: t2 => tripleHead t2
   | _ => false) || tripleHead rest

/-- Lazy group scan: shortest prefix whose remainder matches `\n?````,
accumulating the group in reverse. -/
def tryGroupLoop : List Char → List Char → Option (List Char)
  | [], _ => none
  | c :: r, acc =>
    if closesHere (c :: r) then some acc.reverse else tryGroupLoop r (c :: acc)

/-- The `\n?` before the group, greedy: consume a newline first if present. -/
def tryNl (r : List Char) : Option (List Char) :=
  match r with
  | '\n' :: r2 =>
    (match tryGroupLoop r2 [] with
     | some g => some g
     | none => tryGroupLoop ('\n' :: r2) [])
  | _ => tryGroupLoop r []

/-- The `\s*` before the optional newline, greedy: try the longest
whitespace run first, then backtrack to shorter ones. -/
def tryWsLoop : Nat → List Char → Option (List Char)
  | 0, r => tryNl r
  | k + 1, r =>
    match tryNl (r.drop (k + 1)) with
    | some g => some g
    | none => tryWsLoop k r

/-- Match the part of the fence pattern after ` ``` ` and the optional tag. -/
def attemptAfter (r : List Char) : Option (List Char) :=
  tryWsLoop ((r.takeWhile isReWs).length) r

/-- Try the whole fence pattern at this position: literal ` ``` `, then the
greedy optional `json` tag, then `attemptAfter`. -/
def attemptMatch : List Char → Option (List Char)
  | '`' :: '`' :: '`' :: r =>
    (match r with
     | 'j' :: 's' :: 'o' :: 'n' :: r2 =>
       (match attemptAfter r2 with
        | some g => some g
        | none => attemptAfter r)
     | _ => attemptAfter r)
  | _ => none

/-- Search as `re.search` does: try every start position left to right. -/
def fenceSearch : List Char → Option (List Char)
  | [] => none
  | c :: r =>
    match attemptMatch (c :: r) with
    | some g => some g
    | none => fenceSearch r

/-- Delete every occurrence of ` ```json ` (the fallback's first `replace`). -/
def removeTicksJson : List Char → List Char
  | '`' :: '`' :: '`' :: 'j' :: 's' :: 'o' :: 'n' :: r => removeTicksJson r
  | c :: r => c :: removeTicksJson r
  | [] => []

/-- Delete every occurrence of ` ``` ` (the fallback's second `replace`). -/
def removeTicks : List Char → List Char
  | '`' :: '`' :: '`' :: r => removeTicks r
  | c :: r => c :: removeTicks r
  | [] => []

/-- Python `str.strip()` (ASCII whitespace fragment). -/
def stripL (cs : List Char) : List Char :=
  ((cs.dropWhile isReWs).reverse.dropWhile isReWs).reverse

/-- Step 1 of the cascade: isolate a fenced block, or strip fence markers. -/
def fenceStrip (cs : List Char) : List Char :=
  if containsTriple cs then
    match fenceSearch cs with
    | some g => stripL g
    | none => stripL (removeTicks (removeTicksJson cs))
  else cs

/-- Does the list start with this character? -/
def headIs (cs : List Char) (c : Char) : Bool :=
  match cs with
  | x :: _ => x == c
  | [] => false

/-- Step 2: if the text does not start with `{`, drop everything before the
first `{` (and leave the text alone when there is none). -/
def braceTrim (cs : List Char) : List Char :=
  if headIs cs '{' then cs
  else
    match cs.findIdx? (fun c => c == '{') with
    | some i => cs.drop i
    | none => cs

/-! ### Step 4: the three kinds of textual repairs

`re.sub(r',(\s*[\]\}])', r'\1', t)` removes a comma whose next
non-whitespace character is a closing bracket; the other three
substitutions insert a comma between a string/number/literal token and a
string token separated by whitespace containing a newline.  All four are
embedded as left-to-right scanners that consume each match whole, exactly
as `re.sub` does. -/

/-- Lookahead of the trailing-comma pattern: whitespace run, then `]` or
`}`; returns the run, the bracket and the remainder after it. -/
def matchWsBracket (l : List Char) : Option (List Char × Char × List Char) :=
  match l.dropWhile isReWs with
  | d :: r2 => if d == ']' || d == '}' then some (l.takeWhile isReWs, d, r2) else none
  | [] => none

/-- Step-4 repair (a): remove commas followed by whitespace and a closing
bracket, left to right.  `re.sub` consumes each match through its bracket
and emits the lookahead unchanged; since neither a whitespace character nor
a closing bracket can start a new match, dropping the comma and rescanning
the (unchanged) lookahead yields exactly the same output and keeps the
recursion structural. -/
def fixTrailing : List Char → List Char
  | [] => []
  | ',' :: r =>
    (match matchWsBracket r with
     | some _ => fixTrailing r
     | none => ',' :: fixTrailing r)
  | c :: r => c :: fixTrailing r

/-- Lookahead shared by the comma-insertion repairs: a whitespace run
containing a newline, then a `"`; returns the remainder after the quote. -/
def wsNlQuote (l : List Char) : Option (List Char) :=
  if (l.takeWhile isReWs).contains '\n' then
    match l.dropWhile isReWs with
    | '"' :: r2 => some r2
    | _ => none
  else none

/-- Step-4 repair (b), fueled: `"\s*\n\s*"` becomes `",\n"`, the match
consumed whole.  Each step consumes at least one input character, so the
wrapper's fuel of `length + 1` can never run out; on exhaustion the rest is
returned unchanged. -/
def fixNlStrF : Nat → List Char → List Char
  | 0, l => l
  | _ + 1, [] => []
  | fuel + 1, '"' :: r =>
    (match wsNlQuote r with
     | some r2 => '"' :: ',' :: '\n' :: '"' :: fixNlStrF fuel r2
     | none => '"' :: fixNlStrF fuel r)
  | fuel + 1, c :: r => c :: fixNlStrF fuel r

def fixNlStr (l : List Char) : List Char := fixNlStrF (l.length + 1) l

/-- Step-4 repair (c), fueled: `(\d)\s*\n\s*"` becomes `\1,\n"`. -/
def fixDigitNlF : Nat → List Char → List Char
  | 0, l => l
  | _ + 1, [] => []
  | fuel + 1, c :: r =>
    if isDigit c then
      match wsNlQuote r with
      | some r2 => c :: ',' :: '\n' :: '"' :: fixDigitNlF fuel r2
      | none => c :: fixDigitNlF fuel r
    else c :: fixDigitNlF fuel r

def fixDigitNl (l : List Char) : List Char := fixDigitNlF (l.length + 1) l

/-- Step-4 repair (d), fueled: `(true|false|null)\s*\n\s*"` becomes
`\1,\n"`.  The pattern words contain no second occurrence of `t`, `f` or
`n`, so consuming a matched word whole coincides with the engine's
position-by-position scan. -/
def fixLitNlF : Nat → List Char → List Char
  | 0, l => l
  | _ + 1, [] => []
  | fuel + 1, 't' :: 'r' :: 'u' :: 'e' :: r =>
    (match wsNlQuote r with
     | some r2 => 't' :: 'r' :: 'u' :: 'e' :: ',' :: '\n' :: '"' :: fixLitNlF fuel r2
     | none => 't' :: 'r' :: 'u' :: 'e' :: fixLitNlF fuel r)
  | fuel + 1, 'f' :: 'a' :: 'l' :: 's' :: 'e' :: r =>
    (match wsNlQuote r with
     | some r2 => 'f' :: 'a' :: 'l' :: 's' :: 'e' :: ',' :: '\n' :: '"' :: fixLitNlF fuel r2
     | none => 'f' :: 'a' :: 'l' :: 's' :: 'e' :: fixLitNlF fuel r)
  | fuel + 1, 'n' :: 'u' :: 'l' :: 'l' :: r =>
    (match wsNlQuote r with
     | some r2 => 'n' :: 'u' :: 'l' :: 'l' :: ',' :: '\n' :: '"' :: fixLitNlF fuel r2
     | none => 'n' :: 'u' :: 'l' :: 'l' :: fixLitNlF fuel r)
  | fuel + 1, c :: r => c :: fixLitNlF fuel r

def fixLitNl (l : List Char) : List Char := fixLitNlF (l.length + 1) l

/-- Step 4 in source order: trailing-comma removal, then the three
comma-insertion repairs. -/
def fixAll (t : List Char) : List Char :=
  fixLitNl (fixDigitNl (fixNlStr (fixTrailing t)))

/-! ### Step 5: salvage of the `"paths"` array -/

/-- Consume a literal. -/
def dropLit : List Char → List Char → Option (List Char)
  | [], s => some s
  | c :: p, s =>
    match s with
    | d :: s2 => if d == c then dropLit p s2 else none
    | [] => none

/-- Match `"paths"\s*:\s*\[` here, returning the suffix from the `[`. -/
def pathsKeyAt (s : List Char) : Option (List Char) :=
  match dropLit "\"paths\"".toList s with
  | some r1 =>
    (match r1.dropWhile isReWs with
     | ':' :: r2 =>
       (match r2.dropWhile isReWs with
        | '[' :: r3 => some ('[' :: r3)
        | _ => none)
     | _ => none)
  | none => none

/-- Leftmost occurrence of the `"paths"` array opener. -/
def findPathsArr : List Char → Option (List Char)
  | [] => none
  | c :: r =>
    match pathsKeyAt (c :: r) with
    | some u => some u
    | none => findPathsArr r

/-- The source's string-blind bracket scan from the `[`: count `[` and `]`
only, breaking when the count returns to zero; yields the length of the
scanned array text. -/
def bracketScanLen : List Char → Int → Nat → Option Nat
  | [], _, _ => none
  | c :: r, depth, consumed =>
    if c == '[' then bracketScanLen r (depth + 1) (consumed + 1)
    else if c == ']' then
      (if depth - 1 == 0 then some (consumed + 1) else bracketScanLen r (depth - 1) (consumed + 1))
    else bracketScanLen r depth (consumed + 1)

/-- Step 5: extract the `"paths"` array text, strip trailing commas in it,
parse it in isolation, and wrap it as `{"paths": ...}`. -/
def pathsSalvage (t : List Char) : Option Json :=
  match findPathsArr t with
  | some u =>
    (match bracketScanLen u 0 0 with
     | some len =>
       (match jsonLoads (fixTrailing (u.take len)) with
        | some a => some (Json.obj [("paths", a)])
        | none => none)
     | none => none)
  | none => none

/-! ### Step 6: truncation repair -/

/-- State of the step-6 scan: the two nesting counters plus the
inside-string and escape-pending flags. -/
structure ScanSt where
  brace : Int
  bracket : Int
  inStr : Bool
  esc : Bool
deriving DecidableEq

def initSt : ScanSt := ⟨0, 0, false, false⟩

/-- One character of the step-6 scan, mirroring the source's
`escape_next` / `in_string` / counter updates. -/
def scanStep (st : ScanSt) (c : Char) : ScanSt :=
  if st.esc then { st with esc := false }
  else if c = '\\' then { st with esc := true }
  else if c = '"' then { st with inStr := !st.inStr }
  else if st.inStr then st
  else if c = '{' then { st with brace := st.brace + 1 }
  else if c = '}' then { st with brace := st.brace - 1 }
  else if c = '[' then { st with bracket := st.bracket + 1 }
  else if c = ']' then { st with bracket := st.bracket - 1 }
  else st

/-- The step-6 scan over a text. -/
def scanList (st : ScanSt) (cs : List Char) : ScanSt := cs.foldl scanStep st

/-- Index of the last comma, if any (`str.rfind(',')`). -/
def rfindCommaAux : List Char → Nat → Option Nat → Option Nat
  | [], _, best => best
  | c :: r, i, best => rfindCommaAux r (i + 1) (if c == ',' then some i else best)

def rfindComma (cs : List Char) : Option Nat := rfindCommaAux cs 0 none

/-- The repaired text the source builds in step 6: truncate before the last
comma anywhere, then append `]` for each unclosed bracket and `}` for each
unclosed brace counted on the whole text. -/
def truncRepairText (t : List Char) (p : Nat) (st : ScanSt) : List Char :=
  t.take p ++ List.replicate st.bracket.toNat ']' ++ List.replicate st.brace.toNat '}'

/-- Step 6: when the scan finds unclosed structures and a comma exists at a
positive index, parse the repaired text. -/
def truncRepair (t : List Char) : Option Json :=
  let st := scanList initSt t
  if st.brace > 0 || st.bracket > 0 then
    match rfindComma t with
    | some p => if p > 0 then jsonLoads (truncRepairText t p st) else none
    | none => none
  else none

/-- The whole cascade of `extract_json_from_llm_response`: fence stripping,
boundary trim, direct parse, textual repairs, `"paths"` salvage, truncation
repair, and the final `json.JSONDecodeError` carrying the first 100
characters of the original text. -/
def extract (input : List Char) : Except (List Char) Json :=
  let t := braceTrim (fenceStrip input)
  match jsonLoads t with
  | some v => .ok v
  | none =>
    match jsonLoads (fixAll t) with
    | some v => .ok v
    | none =>
      match pathsSalvage t with
      | some v => .ok v
      | none =>
        match truncRepair t with
        | some v => .ok v
        | none => .error (input.take 100)

/-! ## PathAcceptanceService (`path_acceptance.py`)

The supabase client is modelled as an explicit record of tables, each a
list of records (association lists of column name to value, mirroring the
dictionaries the source passes to `insert`).  An insert always succeeds,
assigns the store id `r<n>` from a counter, and also appends the inserted
dictionary (without the generated id) to a ghost `insertLog`, so that
claims about "the inserts performed" are directly statable.  `uuid4` is
impure, so the fresh batch identifier is a parameter of `acceptPath`.
Submissions are modelled as records with all optional keys present
(defaults pre-applied); the unused `domain_name` argument threaded through
the source's helpers is dropped since no insert mentions it. -/

/-- A column value. -/
inductive Val where
  | s (v : String)
  | i (v : Int)
  | b (v : Bool)
  | nul
deriving DecidableEq

/-- First binding of a key in a record (keys are unique in every record
the service builds). -/
def lookupKey (k : String) : List (String × Val) → Option Val
  | [] => none
  | (k2, v) :: rest => if k2 == k then some v else lookupKey k rest

/-- Replace the binding of a key, or append it (an `update`). -/
def setKey (k : String) (v : Val) : List (String × Val) → List (String × Val)
  | [] => [(k, v)]
  | (k2, v2) :: rest => if k2 == k then (k, v) :: rest else (k2, v2) :: setKey k v rest

/-- The datastore: the tables the service touches, the ghost insert log,
and the id counter. -/
structure DB where
  domains : List (List (String × Val))
  mapNodes : List (List (String × Val))
  courses : List (List (String × Val))
  chapters : List (List (String × Val))
  jobs : List (List (String × Val))
  insertLog : List (String × List (String × Val))
  nextId : Nat
deriving DecidableEq

def newId (n : Nat) : String := "r" ++ Nat.repr n

def insertMapNode (db : DB) (rec : List (String × Val)) : String × DB :=
  (newId db.nextId,
   { db with mapNodes := db.mapNodes ++ [("id", Val.s (newId db.nextId)) :: rec],
             insertLog := ("map_nodes", rec) :: db.insertLog,
             nextId := db.nextId + 1 })

def insertCourse (db : DB) (rec : List (String × Val)) : String × DB :=
  (newId db.nextId,
   { db with courses := db.courses ++ [("id", Val.s (newId db.nextId)) :: rec],
             insertLog := ("courses", rec) :: db.insertLog,
             nextId := db.nextId + 1 })

def insertChapter (db : DB) (rec : List (String × Val)) : String × DB :=
  (newId db.nextId,
   { db with chapters := db.chapters ++ [("id", Val.s (newId db.nextId)) :: rec],
             insertLog := ("chapters", rec) :: db.insertLog,
             nextId := db.nextId + 1 })

def insertJob (db : DB) (rec : List (String × Val)) : String × DB :=
  (newId db.nextId,
   { db with jobs := db.jobs ++ [("id", Val.s (newId db.nextId)) :: rec],
             insertLog := ("content_generation_jobs", rec) :: db.insertLog,
             nextId := db.nextId + 1 })

/-- Apply `update ... eq("id", nodeId)` on `map_nodes`. -/
def updateMapNode (db : DB) (nodeId : String) (kvs : List (String × Val)) : DB :=
  { db with mapNodes := db.mapNodes.map (fun r =>
      if lookupKey "id" r == some (Val.s nodeId) then
        kvs.foldl (fun acc kv => setKey kv.1 kv.2 acc) r
      else r) }

/-- A submitted path node (all optional keys present, defaults applied). -/
structure PathNode where
  id : String
  name : String
  description : String
  level : Int
  parentId : Option String
  isExisting : Bool
  difficulty : String
  estimatedHours : Int
deriving DecidableEq

/-- A submitted path. -/
structure PathData where
  id : Option String
  name : Option String
  nodes : List PathNode
deriving DecidableEq

/-- An entry of the returned `created_nodes` list (course- and
chapter-shaped dictionaries). -/
inductive CreatedEntry where
  | course (pathNodeId mapNodeId nm : String) (courseId : Option String)
  | chapter (pathNodeId mapNodeId nm : String) (chapterId : Option String)
      (parentCourseId : Option String)
deriving DecidableEq

def CreatedEntry.pathNodeId : CreatedEntry → String
  | .course p _ _ _ => p
  | .chapter p _ _ _ _ => p

def CreatedEntry.isChapter : CreatedEntry → Bool
  | .chapter _ _ _ _ _ => true
  | _ => false

/-- An entry of the returned `skipped_nodes` list. -/
structure SkipEntry where
  pathNodeId : String
  nm : String
  reason : String
deriving DecidableEq

/-- An entry of the returned `generation_jobs` list. -/
structure JobEntry where
  jobId : String
  nodeId : String
  nodeName : String
  status : String
deriving DecidableEq

/-- The dictionary `accept_path` returns. -/
structure AcceptResult where
  success : Bool
  batchId : String
  pathId : String
  pathName : String
  createdNodes : List CreatedEntry
  generationJobs : List JobEntry
  skippedNodes : List SkipEntry
  totalNewNodes : Nat
  totalJobs : Nat
deriving DecidableEq

/-- The embedded `_get_domain_info`: try id, then name, then slug. -/
def getDomainInfo (db : DB) (domain : String) : Option (List (String × Val)) :=
  match db.domains.find? (fun r => lookupKey "id" r == some (Val.s domain)) with
  | some r => some r
  | none =>
    match db.domains.find? (fun r => lookupKey "name" r == some (Val.s domain)) with
    | some r => some r
    | none => db.domains.find? (fun r => lookupKey "slug" r == some (Val.s domain))

/-- The embedded `_find_existing_node`: first map node matching name, domain and depth. -/
def findExistingNode (db : DB) (nm : String) (domainId : String) (depth : Int) :
    Option (List (String × Val)) :=
  db.mapNodes.find? (fun r =>
    lookupKey "name" r == some (Val.s nm) &&
    lookupKey "domain_id" r == some (Val.s domainId) &&
    lookupKey "depth" r == some (Val.i depth))

/-- The `node_data` dictionary of `_create_course_node` (note: the
function receives `batch_id` but the dictionary has no such key). -/
def courseNodeData (n : PathNode) (domainId : String) : List (String × Val) :=
  [("name", Val.s n.name), ("description", Val.s n.description),
   ("domain_id", Val.s domainId), ("depth", Val.i 1), ("parent_id", Val.nul),
   ("node_type", Val.s "topic"), ("difficulty", Val.s n.difficulty),
   ("estimated_hours", Val.i n.estimatedHours), ("status", Val.s "active"),
   ("generation_status", Val.nul)]

/-- The `course_data` dictionary of `_create_course_node`. -/
def courseData (n : PathNode) (domainId : String) : List (String × Val) :=
  [("title", Val.s n.name), ("description", Val.s n.description),
   ("domain_id", Val.s domainId), ("difficulty", Val.s n.difficulty),
   ("estimated_hours", Val.i n.estimatedHours), ("status", Val.s "draft")]

/-- The embedded `_create_course_node`: insert the map node, insert the course, link
them; returns the created-entry, the node id and the new store. -/
def createCourseNode (db : DB) (n : PathNode) (domainId : String) :
    CreatedEntry × String × DB :=
  let p1 := insertMapNode db (courseNodeData n domainId)
  let p2 := insertCourse p1.2 (courseData n domainId)
  let db3 := updateMapNode p2.2 p1.1 [("course_id", Val.s p2.1)]
  (CreatedEntry.course n.id p1.1 n.name (some p2.1), p1.1, db3)

/-- The `node_data` dictionary of `_create_chapter_node` (again with no
`batch_id` key). -/
def chapterNodeData (n : PathNode) (parentMapNodeId domainId : String) :
    List (String × Val) :=
  [("name", Val.s n.name), ("description", Val.s n.description),
   ("domain_id", Val.s domainId), ("depth", Val.i 2),
   ("parent_id", Val.s parentMapNodeId), ("node_type", Val.s "subtopic"),
   ("difficulty", Val.s n.difficulty), ("estimated_hours", Val.i n.estimatedHours),
   ("status", Val.s "active"), ("generation_status", Val.s "pending")]

/-- The `chapter_data` dictionary of `_create_chapter_node`. -/
def chapterData (n : PathNode) (courseId : String) (sortOrder : Int) :
    List (String × Val) :=
  [("course_id", Val.s courseId), ("title", Val.s n.name),
   ("description", Val.s n.description),
   ("estimated_minutes", Val.i (n.estimatedHours * 60)),
   ("sort_order", Val.i sortOrder), ("xp_reward", Val.i (100 + sortOrder * 25))]

/-- The embedded `_create_chapter_node`: look up the parent's course, insert the map
node, and (when the parent has a course) insert the chapter with
`sort_order` = chapter count + 1. -/
def createChapterNode (db : DB) (n : PathNode) (parentMapNodeId domainId : String) :
    CreatedEntry × String × DB :=
  let parentCourseId :=
    match db.mapNodes.find? (fun r => lookupKey "id" r == some (Val.s parentMapNodeId)) with
    | some r =>
      (match lookupKey "course_id" r with
       | some (Val.s cid) => some cid
       | _ => none)
    | none => none
  let p1 := insertMapNode db (chapterNodeData n parentMapNodeId domainId)
  match parentCourseId with
  | some cid =>
    let sortOrder : Int :=
      ((p1.2.chapters.filter (fun r => lookupKey "course_id" r == some (Val.s cid))).length : Int) + 1
    let p2 := insertChapter p1.2 (chapterData n cid sortOrder)
    (CreatedEntry.chapter n.id p1.1 n.name (some p2.1) (some cid), p1.1, p2.2)
  | none => (CreatedEntry.chapter n.id p1.1 n.name none none, p1.1, p1.2)

/-- The `job_data` dictionary of `_create_generation_job` (this one does
carry `batch_id`). -/
def jobData (mapNodeId batchId pathId pathNodeId domainId : String) :
    List (String × Val) :=
  [("node_id", Val.s mapNodeId), ("generation_type", Val.s "chapter_content"),
   ("status", Val.s "pending"), ("batch_id", Val.s batchId),
   ("path_id", Val.s pathId), ("path_node_id", Val.s pathNodeId),
   ("domain_id", Val.s domainId), ("progress_percent", Val.i 0),
   ("progress_message", Val.s "Queued for content generation...")]

/-- The embedded `_create_generation_job`: insert the job and stamp the node with the
job reference. -/
def createGenerationJob (db : DB) (mapNodeId nodeName domainId batchId pathId pathNodeId : String) :
    JobEntry × DB :=
  let p1 := insertJob db (jobData mapNodeId batchId pathId pathNodeId domainId)
  let db2 := updateMapNode p1.2 mapNodeId
    [("generation_job_id", Val.s p1.1), ("generation_status", Val.s "pending")]
  ({ jobId := p1.1, nodeId := mapNodeId, nodeName := nodeName, status := "pending" }, db2)

/-- The call-local accumulation of `accept_path`: the store plus the
result lists and the `node_id_mapping`. -/
structure AccState where
  db : DB
  created : List CreatedEntry
  jobs : List JobEntry
  skipped : List SkipEntry
  mapping : List (String × String)
deriving DecidableEq

/-- Lookup as `node_id_mapping.get`: newest binding wins (bindings are prepended). -/
def lookupMapping (m : List (String × String)) : Option String → Option String
  | some key =>
    (match m.find? (fun p => p.1 == key) with
     | some p => some p.2
     | none => none)
  | none => none

/-- The level-1 loop body of `accept_path`. -/
def processL1 (domainId : String) (st : AccState) (n : PathNode) : AccState :=
  if n.isExisting then
    let st1 := { st with skipped := st.skipped ++ [⟨n.id, n.name, "already_exists"⟩] }
    match findExistingNode st.db n.name domainId 1 with
    | some r =>
      (match lookupKey "id" r with
       | some (Val.s mid) => { st1 with mapping := (n.id, mid) :: st1.mapping }
       | _ => st1)
    | none => st1
  else
    let t := createCourseNode st.db n domainId
    { st with db := t.2.2, created := st.created ++ [t.1],
              mapping := (n.id, t.2.1) :: st.mapping }

/-- The level-2 loop body of `accept_path`. -/
def processL2 (domainId batchId pathId : String) (st : AccState) (n : PathNode) : AccState :=
  if n.isExisting then
    { st with skipped := st.skipped ++ [⟨n.id, n.name, "already_exists"⟩] }
  else
    match lookupMapping st.mapping n.parentId with
    | none => { st with skipped := st.skipped ++ [⟨n.id, n.name, "parent_not_found"⟩] }
    | some parentMapNodeId =>
      let t := createChapterNode st.db n parentMapNodeId domainId
      let j := createGenerationJob t.2.2 t.2.1 n.name domainId batchId pathId n.id
      { db := j.2, created := st.created ++ [t.1], jobs := st.jobs ++ [j.1],
        skipped := st.skipped, mapping := (n.id, t.2.1) :: st.mapping }

/-- The embedded `accept_path`: resolve the domain, then the level-1 pass, then the
level-2 pass, then the aggregate result.  The fresh `batch_id` is a
parameter (`uuid4` is impure); failure carries the `ValueError` message. -/
def acceptPath (pd : PathData) (domain : String) (batchId : String) (db : DB) :
    Except String (AcceptResult × DB) :=
  match getDomainInfo db domain with
  | none => .error ("Domain not found: " ++ domain)
  | some dinfo =>
    match lookupKey "id" dinfo with
    | some (Val.s domainId) =>
      let pathId := pd.id.getD ("path-" ++ ⟨batchId.toList.take 8⟩)
      let pathName := pd.name.getD "Unnamed Path"
      let level1 := pd.nodes.filter (fun n => n.level == 1)
      let level2 := pd.nodes.filter (fun n => n.level == 2)
      let st1 := level1.foldl (processL1 domainId) ⟨db, [], [], [], []⟩
      let st2 := level2.foldl (processL2 domainId batchId pathId) st1
      .ok ({ success := true, batchId := batchId, pathId := pathId, pathName := pathName,
             createdNodes := st2.created, generationJobs := st2.jobs,
             skippedNodes := st2.skipped, totalNewNodes := st2.created.length,
             totalJobs := st2.jobs.length }, st2.db)
    | _ => .error "KeyError: id"

/-! ### `get_batch_status` -/

/-- The status `j["status"]` of a job record (jobs the service creates always carry
the key). -/
def statusOf (r : List (String × Val)) : String :=
  match lookupKey "status" r with
  | some (Val.s s) => s
  | _ => ""

/-- The progress field `j.get("progress_percent", 0)`. -/
def progressOf (r : List (String × Val)) : Int :=
  match lookupKey "progress_percent" r with
  | some (Val.i n) => n
  | _ => 0

/-- One job's contribution to `total_progress`: completed counts 100,
processing counts its own percent, anything else 0. -/
def jobWeight (r : List (String × Val)) : Int :=
  if statusOf r = "completed" then 100
  else if statusOf r = "processing" then progressOf r
  else 0

/-- Round half to even of the exact fraction `p / q` (`q` positive):
Python's `round` on the exact value. -/
def roundHE (p q : Int) : Int :=
  let f := Int.fdiv p q
  let r := p - q * f
  if 2 * r < q then f
  else if q < 2 * r then f + 1
  else if f % 2 = 0 then f else f + 1

/-- An entry of the `jobs` list in the batch-status result. -/
structure BatchJobView where
  jobId : String
  nodeId : String
  nodeName : String
  status : String
  progressPercent : Int
  progressMessage : Option Val
  errorMessage : Option Val
deriving DecidableEq

/-- The dictionary `get_batch_status` returns.  `overall_progress` is a
two-decimal value; it is stored here exactly, scaled by 100
(`overallProgressCenti = 6667` encodes `66.67`). -/
structure BatchStatus where
  batchId : String
  overallProgressCenti : Int
  completedCount : Nat
  failedCount : Nat
  totalCount : Nat
  allCompleted : Bool
  jobs : List BatchJobView
deriving DecidableEq

def jobNodeId (r : List (String × Val)) : String :=
  match lookupKey "node_id" r with
  | some (Val.s s) => s
  | _ => ""

/-- Name resolution for a job's node (`node_names.get(..., "Unknown")`). -/
def nodeNameFor (db : DB) (nid : String) : String :=
  match db.mapNodes.find? (fun r => lookupKey "id" r == some (Val.s nid)) with
  | some r =>
    (match lookupKey "name" r with
     | some (Val.s nm) => nm
     | _ => "Unknown")
  | none => "Unknown"

/-- The embedded `get_batch_status`: fetch the batch's jobs, count completed and
failed, compute the weighted progress average rounded to two decimals, and
attach per-job views with resolved node names. -/
def getBatchStatus (db : DB) (batchId : String) : BatchStatus :=
  let jobs := db.jobs.filter (fun r => lookupKey "batch_id" r == some (Val.s batchId))
  let completed := (jobs.filter (fun r => statusOf r == "completed")).length
  let failed := (jobs.filter (fun r => statusOf r == "failed")).length
  let total := jobs.length
  let overall : Int :=
    if total > 0 then roundHE ((jobs.map jobWeight).sum * 100) (total : Int) else 0
  { batchId := batchId, overallProgressCenti := overall, completedCount := completed,
    failedCount := failed, totalCount := total,
    allCompleted := completed + failed == total,
    jobs := jobs.map (fun r =>
      { jobId := (match lookupKey "id" r with | some (Val.s s) => s | _ => ""),
        nodeId := jobNodeId r,
        nodeName := nodeNameFor db (jobNodeId r),
        status := statusOf r,
        progressPercent := progressOf r,
        progressMessage := lookupKey "progress_message" r,
        errorMessage := lookupKey "error_message" r }) }

/-! ### The step-6 repair as the specification words it (for claim C5) -/

/-- Index of the last comma at nesting depth 1 of the outermost open
structure, outside quoted strings, with backslash escaping honored; the
state is (index, depth, inString, escapePending, best-so-far). -/
def lastTopCommaAux : List Char → Nat → Int → Bool → Bool → Option Nat → Option Nat
  | [], _, _, _, _, best => best
  | c :: r, i, depth, inStr, esc, best =>
    if esc then lastTopCommaAux r (i + 1) depth inStr false best
    else if c = '\\' then lastTopCommaAux r (i + 1) depth inStr true best
    else if c = '"' then lastTopCommaAux r (i + 1) depth (!inStr) false best
    else if inStr then lastTopCommaAux r (i + 1) depth inStr false best
    else if c = '{' || c = '[' then lastTopCommaAux r (i + 1) (depth + 1) inStr false best
    else if c = '}' || c = ']' then lastTopCommaAux r (i + 1) (depth - 1) inStr false best
    else if c = ',' && depth == 1 then lastTopCommaAux r (i + 1) depth inStr false (some i)
    else lastTopCommaAux r (i + 1) depth inStr false best

def lastTopComma (t : List Char) : Option Nat := lastTopCommaAux t 0 0 false false none

/-- Modelled from the spec: the step-6 repair as the specification
describes it — truncate the text immediately before its *last top-level
comma* (a comma at the nesting depth of the outermost open structure and
not inside a quoted string) and append exactly the number of closing `]`
and `}` needed to balance the *truncated* text.  The source instead
truncates at `rfind(',')` and appends counts taken from the whole text;
claim C5 compares the two. -/
def repairSpecText (t : List Char) : Option (List Char) :=
  match lastTopComma t with
  | some p =>
    let tr := t.take p
    let st := scanList initSt tr
    some (tr ++ List.replicate st.bracket.toNat ']' ++ List.replicate st.brace.toNat '}')
  | none => none

/-- The fenced wrapping of claim C9: a triple-backtick block tagged
`json` around the serialized document. -/
def wrapFence (S : List Char) : List Char :=
  "```json\n".toList ++ S ++ ('\n' :: '`' :: '`' :: '`' :: [])

/-! ### Concrete fixtures used by witnesses and counterexamples -/

def demoDb : DB := ⟨[[("id", Val.s "d1"), ("name", Val.s "Frontend")]], [], [], [], [], [], 0⟩

def demoN1 : PathNode := ⟨"A", "Course A", "intro", 1, none, false, "beginner", 20⟩

def demoN2 : PathNode := ⟨"B", "Chapter B", "b", 2, some "A", false, "beginner", 2⟩

def demoN3 : PathNode := ⟨"C", "Chapter C", "c", 2, some "A", false, "beginner", 2⟩

/-- A level-2 node whose parent reference names another level-2 node. -/
def chainN3 : PathNode := ⟨"C", "Chapter C", "c", 2, some "B", false, "beginner", 2⟩

def demoPath : PathData := ⟨some "p1", some "Demo Path", [demoN1, demoN2, demoN3]⟩

def chainPath : PathData := ⟨some "p1", some "Chain Path", [demoN1, demoN2, chainN3]⟩

def demoAccept : Except String (AcceptResult × DB) := acceptPath demoPath "d1" "b1" demoDb

def demoRes : AcceptResult :=
  match demoAccept with
  | .ok p => p.1
  | .error _ => ⟨false, "", "", "", [], [], [], 0, 0⟩

def demoDb2 : DB :=
  match demoAccept with
  | .ok p => p.2
  | .error _ => demoDb

/-! ## Theorems -/

/-! ### Behavior of steps 1 and 2 on texts they leave alone -/

theorem tripleHead_eq_false {c : Char} {r : List Char} (h : c ≠ '`') :
    tripleHead (c :: r) = false := by
  unfold tripleHead
  split
  · rename_i heq
    injection heq with h1 _
    exact absurd h1 h
  · rfl

theorem containsTriple_eq_false {t : List Char} (h : ('`' : Char) ∉ t) :
    containsTriple t = false := by
  induction t with
  | nil => rfl
  | cons c r ih =>
    have hc : c ≠ '`' := fun hcc => h (hcc ▸ List.mem_cons_self c r)
    have hr : ('`' : Char) ∉ r := fun hm => h (List.mem_cons_of_mem _ hm)
    simp [containsTriple, tripleHead_eq_false hc, ih hr]

theorem fenceStrip_eq_self {t : List Char} (h : ('`' : Char) ∉ t) :
    fenceStrip t = t := by
  simp [fenceStrip, containsTriple_eq_false h]

theorem braceTrim_eq_self_of_head {t : List Char} (h : headIs t '{' = true) :
    braceTrim t = t := by
  simp [braceTrim, h]

theorem braceTrim_eq_self_of_not_mem {t : List Char} (h : ('{' : Char) ∉ t) :
    braceTrim t = t := by
  have hf : t.findIdx? (fun c => c == '{') = none := by
    rw [List.findIdx?_eq_none_iff]
    intro x hx
    simp only [beq_eq_false_iff_ne, ne_eq]
    exact fun hxx => h (hxx ▸ hx)
  unfold braceTrim
  split
  · rfl
  · rw [hf]

/-! ### Behavior of the step-4 repairs on texts they leave alone -/

theorem fixTrailing_cons_ne {c : Char} {r : List Char} (h : c ≠ ',') :
    fixTrailing (c :: r) = c :: fixTrailing r := by
  rw [fixTrailing.eq_def]
  split
  · rename_i heq
    simp at heq
  · rename_i heq
    injection heq with h1 _
    exact absurd h1 h
  · rename_i heq
    injection heq with h1 h2
    rw [h1, h2]

theorem fixTrailing_eq_self_of_no_comma {t : List Char} (h : (',' : Char) ∉ t) :
    fixTrailing t = t := by
  induction t with
  | nil => rfl
  | cons c r ih =>
    have hc : c ≠ ',' := fun hcc => h (hcc ▸ List.mem_cons_self c r)
    have hr : (',' : Char) ∉ r := fun hm => h (List.mem_cons_of_mem _ hm)
    rw [fixTrailing_cons_ne hc, ih hr]

theorem wsNlQuote_eq_none_of_no_nl {l : List Char} (h : ('\n' : Char) ∉ l) :
    wsNlQuote l = none := by
  unfold wsNlQuote
  have : (l.takeWhile isReWs).contains '\n' = false := by
    rw [← Bool.not_eq_true, List.elem_iff]
    exact fun hm => h ((List.takeWhile_sublist _).subset hm)
  rw [this]
  rfl

theorem fixNlStrF_eq_self {fuel : Nat} {l : List Char} (h : ('\n' : Char) ∉ l) :
    fixNlStrF fuel l = l := by
  induction fuel generalizing l with
  | zero => rfl
  | succ fuel ih =>
    rcases l with _ | ⟨c, r⟩
    · rfl
    · have hr : ('\n' : Char) ∉ r := fun hm => h (List.mem_cons_of_mem _ hm)
      by_cases hq : c = '"'
      · subst hq
        simp [fixNlStrF, wsNlQuote_eq_none_of_no_nl hr, ih hr]
      · rw [show fixNlStrF (fuel + 1) (c :: r) = c :: fixNlStrF fuel r from by
          rw [fixNlStrF.eq_def]; split <;> simp_all, ih hr]

theorem fixNlStr_eq_self {l : List Char} (h : ('\n' : Char) ∉ l) :
    fixNlStr l = l := fixNlStrF_eq_self h

theorem fixDigitNlF_eq_self {fuel : Nat} {l : List Char} (h : ('\n' : Char) ∉ l) :
    fixDigitNlF fuel l = l := by
  induction fuel generalizing l with
  | zero => rfl
  | succ fuel ih =>
    rcases l with _ | ⟨c, r⟩
    · rfl
    · have hr : ('\n' : Char) ∉ r := fun hm => h (List.mem_cons_of_mem _ hm)
      simp [fixDigitNlF, wsNlQuote_eq_none_of_no_nl hr, ih hr]

theorem fixDigitNl_eq_self {l : List Char} (h : ('\n' : Char) ∉ l) :
    fixDigitNl l = l := fixDigitNlF_eq_self h

theorem fixLitNlF_eq_self {fuel : Nat} {l : List Char} (h : ('\n' : Char) ∉ l) :
    fixLitNlF fuel l = l := by
  induction fuel generalizing l with
  | zero => rfl
  | succ fuel ih =>
    rw [fixLitNlF.eq_def]
    split
    · rfl
    · rfl
    · rename_i fuel2 r heq
      injection heq with hf
      subst hf
      have hr : ('\n' : Char) ∉ r := fun hm => h (by simp [hm])
      rw [wsNlQuote_eq_none_of_no_nl hr]
      simp [ih hr]
    · rename_i fuel2 r heq
      injection heq with hf
      subst hf
      have hr : ('\n' : Char) ∉ r := fun hm => h (by simp [hm])
      rw [wsNlQuote_eq_none_of_no_nl hr]
      simp [ih hr]
    · rename_i fuel2 r heq
      injection heq with hf
      subst hf
      have hr : ('\n' : Char) ∉ r := fun hm => h (by simp [hm])
      rw [wsNlQuote_eq_none_of_no_nl hr]
      simp [ih hr]
    · rename_i fuel2 c r hp1 hp2 hp3 heq
      injection heq with hf
      subst hf
      have hr : ('\n' : Char) ∉ r := fun hm => h (by simp [hm])
      simp [ih hr]

theorem fixLitNl_eq_self {l : List Char} (h : ('\n' : Char) ∉ l) :
    fixLitNl l = l := fixLitNlF_eq_self h

theorem fixAll_eq_self {t : List Char} (hcm : (',' : Char) ∉ t)
    (hnl : ('\n' : Char) ∉ t) : fixAll t = t := by
  unfold fixAll
  rw [fixTrailing_eq_self_of_no_comma hcm, fixNlStr_eq_self hnl,
    fixDigitNl_eq_self hnl, fixLitNl_eq_self hnl]

/-! ### Step 5 is skipped when there is no bracket at all -/

theorem dropLit_sublist {p s r : List Char} (h : dropLit p s = some r) :
    r.Sublist s := by
  induction p generalizing s with
  | nil =>
    simp only [dropLit, Option.some.injEq] at h
    exact h ▸ List.Sublist.refl _
  | cons c p ih =>
    rcases s with _ | ⟨d, s2⟩
    · simp [dropLit] at h
    · simp only [dropLit] at h
      by_cases hd : (d == c) = true
      · rw [if_pos hd] at h
        exact List.Sublist.cons _ (ih h)
      · rw [if_neg hd] at h
        simp at h

theorem pathsKeyAt_none {s : List Char} (h : ('[' : Char) ∉ s) :
    pathsKeyAt s = none := by
  unfold pathsKeyAt
  split
  · rename_i r1 hd
    have hr1 : ('[' : Char) ∉ r1 := fun hm => h ((dropLit_sublist hd).subset hm)
    split
    · rename_i r2 heq
      have hsub2 : (':' :: r2).Sublist r1 := by
        rw [← heq]; exact List.dropWhile_sublist _
      have hr2 : ('[' : Char) ∉ r2 :=
        fun hm => hr1 (hsub2.subset (List.mem_cons_of_mem _ hm))
      split
      · rename_i r3 heq2
        have hsub3 : ('[' :: r3).Sublist r2 := by
          rw [← heq2]; exact List.dropWhile_sublist _
        exact absurd (hsub3.subset (List.mem_cons_self _ _)) hr2
      · rfl
    · rfl
  · rfl

theorem findPathsArr_none {t : List Char} (h : ('[' : Char) ∉ t) :
    findPathsArr t = none := by
  induction t with
  | nil => rfl
  | cons c r ih =>
    have hr : ('[' : Char) ∉ r := fun hm => h (List.mem_cons_of_mem _ hm)
    simp [findPathsArr, pathsKeyAt_none h, ih hr]

theorem pathsSalvage_none {t : List Char} (h : findPathsArr t = none) :
    pathsSalvage t = none := by
  simp [pathsSalvage, h]

/-! ### Step 6 is skipped when no structure ever opens -/

theorem scanList_nonpos {t : List Char} (h1 : ('{' : Char) ∉ t)
    (h2 : ('[' : Char) ∉ t) {st : ScanSt} (hb : st.brace ≤ 0) (hk : st.bracket ≤ 0) :
    (scanList st t).brace ≤ 0 ∧ (scanList st t).bracket ≤ 0 := by
  induction t generalizing st with
  | nil => exact ⟨hb, hk⟩
  | cons c r ih =>
    have hc1 : c ≠ '{' := fun he => h1 (he ▸ List.mem_cons_self _ _)
    have hc2 : c ≠ '[' := fun he => h2 (he ▸ List.mem_cons_self _ _)
    have hr1 : ('{' : Char) ∉ r := fun hm => h1 (List.mem_cons_of_mem _ hm)
    have hr2 : ('[' : Char) ∉ r := fun hm => h2 (List.mem_cons_of_mem _ hm)
    have hstep : (scanStep st c).brace ≤ 0 ∧ (scanStep st c).bracket ≤ 0 := by
      unfold scanStep
      split_ifs <;> simp_all <;> omega
    exact ih hr1 hr2 hstep.1 hstep.2

theorem truncRepair_none_of_nonpos {t : List Char}
    (h1 : ('{' : Char) ∉ t) (h2 : ('[' : Char) ∉ t) : truncRepair t = none := by
  have hsc := @scanList_nonpos t h1 h2 initSt (by simp [initSt]) (by simp [initSt])
  unfold truncRepair
  have hcond : ((scanList initSt t).brace > 0 || (scanList initSt t).bracket > 0) = false := by
    simp only [Bool.or_eq_false_iff, decide_eq_false_iff_not, not_lt]
    exact hsc
  simp [hcond]

/-- C4, counterexample: the text `null` contains no `{` (and survives fence
stripping unchanged), yet `extract_json_from_llm_response` succeeds and
returns the decoded `null` instead of failing with a `ParseFailure`. -/
theorem c4_counterexample :
    extract "null".toList = .ok Json.null ∧ ('{' : Char) ∉ "null".toList :=
  ⟨rfl, by decide⟩

/-- C4 (amended): for any input text that (after fence stripping, here:
containing no backtick) contains no `{`, no `[`, no comma and no newline,
and on which direct JSON decoding fails, `extract_json_from_llm_response`
fails with a `ParseFailure` (a `json.JSONDecodeError` carrying the first
100 characters of the original text) rather than returning a value. -/
theorem c4_error_on_unparseable_braceless {t : List Char}
    (hbt : ('`' : Char) ∉ t) (hbr : ('{' : Char) ∉ t) (hbk : ('[' : Char) ∉ t)
    (hcm : (',' : Char) ∉ t) (hnl : ('\n' : Char) ∉ t)
    (hp : jsonLoads t = none) :
    extract t = .error (t.take 100) := by
  have h1 : fenceStrip t = t := fenceStrip_eq_self hbt
  have h2 : braceTrim t = t := braceTrim_eq_self_of_not_mem hbr
  have hfix : fixAll t = t := fixAll_eq_self hcm hnl
  have hps : pathsSalvage t = none := pathsSalvage_none (findPathsArr_none hbk)
  have htr : truncRepair t = none := truncRepair_none_of_nonpos hbr hbk
  simp [extract, h1, h2, hp, hfix, hps, htr]

/-- C4, witness: the amended theorem applied to the text `hello`. -/
theorem c4_error_on_unparseable_braceless_witness :
    extract "hello".toList = .error ("hello".toList.take 100) :=
  c4_error_on_unparseable_braceless (by decide) (by decide) (by decide)
    (by decide) (by decide) rfl

/-- C5, counterexample: on `{"a": [1], "b": [2` the repair the claim
describes (truncate before the last *top-level* comma, close with what the
*truncated* text needs) yields `{"a": [1]}`, which parses — yet
`extract_json_from_llm_response` raises, because the source truncates at
the last comma *anywhere* (`rfind`) and appends closers counted on the
*whole* text, producing the unparseable `{"a": [1]]}`. -/
theorem c5_counterexample :
    repairSpecText "\x7b\"a\": [1], \"b\": [2".toList = some "\x7b\"a\": [1]\x7d".toList ∧
    jsonLoads "\x7b\"a\": [1]\x7d".toList = some (Json.obj [("a", Json.arr [Json.num 1])]) ∧
    rfindComma "\x7b\"a\": [1], \"b\": [2".toList = some 9 ∧
    truncRepairText "\x7b\"a\": [1], \"b\": [2".toList 9
      (scanList initSt "\x7b\"a\": [1], \"b\": [2".toList) = "\x7b\"a\": [1]]\x7d".toList ∧
    extract "\x7b\"a\": [1], \"b\": [2".toList =
      .error "\x7b\"a\": [1], \"b\": [2".toList :=
  ⟨rfl, rfl, rfl, rfl, rfl⟩

/-- C5 (amended): when steps 1–5 all fail and the step-6 scan finds
unclosed structures, the source truncates the text immediately before its
last comma *anywhere* (`str.rfind`, regardless of nesting depth or quoted
strings, and only if that index is positive) and appends `]` repeated the
whole text's unclosed-bracket count followed by `}` repeated the whole
text's unclosed-brace count; extraction returns the parse of exactly that
repaired text when it succeeds. -/
theorem c5_trunc_repair_behavior {t : List Char} {p : Nat} {v : Json}
    (hbt : ('`' : Char) ∉ t) (hh : headIs t '{' = true)
    (hp0 : jsonLoads t = none) (hp4 : jsonLoads (fixAll t) = none)
    (hp5 : pathsSalvage t = none)
    (hpos : (scanList initSt t).brace > 0 ∨ (scanList initSt t).bracket > 0)
    (hrf : rfindComma t = some p) (hppos : p > 0)
    (hrep : jsonLoads (truncRepairText t p (scanList initSt t)) = some v) :
    extract t = .ok v := by
  have h1 : fenceStrip t = t := fenceStrip_eq_self hbt
  have h2 : braceTrim t = t := braceTrim_eq_self_of_head hh
  have htr : truncRepair t = some v := by
    unfold truncRepair
    have hcond : ((scanList initSt t).brace > 0 || (scanList initSt t).bracket > 0) = true := by
      rcases hpos with hx | hx <;> simp [hx]
    simp only [hcond, if_true, hrf, hppos, if_pos, hrep]
  simp [extract, h1, h2, hp0, hp4, hp5, htr]

/-- C5, witness: the amended theorem applied to `{"a": [1, 2`, whose
repaired text `{"a": [1]}` parses. -/
theorem c5_trunc_repair_behavior_witness :
    extract "\x7b\"a\": [1, 2".toList = .ok (Json.obj [("a", Json.arr [Json.num 1])]) :=
  c5_trunc_repair_behavior (by decide) (by decide) rfl rfl rfl
    (by right; decide) rfl (by decide) rfl

/-- C1, counterexample: in `{"a": "x,]", "b": [1,]}` the comma inside the
quoted string `"x,]"` is removed by the step-4 trailing-comma repair (a
raw-text regex), so extraction returns a document whose string content was
altered — quoted-string contents are not protected in steps 4 and 5. -/
theorem c1_counterexample :
    fixTrailing "\x7b\"a\": \"x,]\", \"b\": [1,]\x7d".toList =
      "\x7b\"a\": \"x]\", \"b\": [1]\x7d".toList ∧
    extract "\x7b\"a\": \"x,]\", \"b\": [1,]\x7d".toList =
      .ok (Json.obj [("a", Json.str "x]"), ("b", Json.arr [Json.num 1])]) ∧
    ("x]" : String) ≠ "x,]" :=
  ⟨rfl, rfl, by decide⟩

theorem scanList_append (st : ScanSt) (a b : List Char) :
    scanList st (a ++ b) = scanList (scanList st a) b :=
  List.foldl_append ..

theorem scanList_in_string_skip {s : List Char} {st : ScanSt}
    (hin : st.inStr = true) (hesc : st.esc = false)
    (hq : ('"' : Char) ∉ s) (hbs : ('\\' : Char) ∉ s) : scanList st s = st := by
  induction s generalizing st with
  | nil => rfl
  | cons c r ih =>
    have hc1 : c ≠ '"' := fun he => hq (he ▸ List.mem_cons_self _ _)
    have hc2 : c ≠ '\\' := fun he => hbs (he ▸ List.mem_cons_self _ _)
    have hr1 : ('"' : Char) ∉ r := fun hm => hq (List.mem_cons_of_mem _ hm)
    have hr2 : ('\\' : Char) ∉ r := fun hm => hbs (List.mem_cons_of_mem _ hm)
    have hstep : scanStep st c = st := by
      unfold scanStep
      rw [if_neg (by simp [hesc]), if_neg hc2, if_neg hc1, if_pos (by simp [hin])]
    show scanList (scanStep st c) r = st
    rw [hstep]
    exact ih hin hesc hr1 hr2

/-- C1 (amended): only the step-6 truncation scan treats characters inside
quoted strings as non-structural.  Formally: whenever the scan reaches a
position outside any string with no escape pending, the contents of a
quoted string inserted there (any characters except `"` and `\`) leave the
whole scan state — in particular both nesting counters — exactly as if the
string were empty.  The step-4 comma repairs and the step-5 bracket scan
operate on raw text and do not have this property (see the C1
counterexample, where a comma inside a quoted string is deleted). -/
theorem c1_step6_scan_string_transparent {t1 s t2 : List Char}
    (h1 : (scanList initSt t1).inStr = false) (h2 : (scanList initSt t1).esc = false)
    (hq : ('"' : Char) ∉ s) (hbs : ('\\' : Char) ∉ s) :
    scanList initSt (t1 ++ '"' :: (s ++ '"' :: t2)) =
      scanList initSt (t1 ++ '"' :: '"' :: t2) := by
  rw [scanList_append, scanList_append]
  have hquote : scanStep (scanList initSt t1) '"' =
      { scanList initSt t1 with inStr := true, esc := false } := by
    unfold scanStep
    rw [if_neg (by simp [h2]), if_neg (by decide), if_pos rfl]
    simp [h1, h2]
  show scanList (scanStep (scanList initSt t1) '"') (s ++ '"' :: t2) =
    scanList (scanStep (scanList initSt t1) '"') ('"' :: t2)
  rw [hquote, scanList_append _ s ('"' :: t2)]
  rw [scanList_in_string_skip rfl rfl hq hbs]

/-- C1, witness: the step-6 transparency theorem applied after `{` to the
string body `[,]{` (each of its brackets and braces is ignored). -/
theorem c1_step6_scan_string_transparent_witness :
    scanList initSt ("\x7b".toList ++ '"' :: ("[,]\x7b".toList ++ '"' :: "]".toList)) =
      scanList initSt ("\x7b".toList ++ '"' :: '"' :: "]".toList) :=
  c1_step6_scan_string_transparent (by decide) (by decide) (by decide) (by decide)

theorem fixTrailing_length_le (l : List Char) : (fixTrailing l).length ≤ l.length := by
  induction l with
  | nil => simp [fixTrailing]
  | cons c r ih =>
    by_cases hc : c = ','
    · subst hc
      have he : fixTrailing ((',' :: r) : List Char) =
          (match matchWsBracket r with
           | some _ => fixTrailing r
           | none => ',' :: fixTrailing r) := rfl
      rw [he]
      rcases hm : matchWsBracket r with _ | x <;> simp <;> omega
    · rw [fixTrailing_cons_ne hc]
      simpa using ih

theorem matchWsBracket_cons_ws {x : Char} {l : List Char} (hx : isReWs x = true) :
    (matchWsBracket (x :: l) = none) ↔ (matchWsBracket l = none) := by
  unfold matchWsBracket
  rw [List.dropWhile_cons_of_pos hx]
  rcases hdd : l.dropWhile isReWs with _ | ⟨y, r⟩
  · simp
  · by_cases hy : (y == ']' || y == '}') = true
    · simp [hy]
    · simp [hy]

theorem matchWsBracket_cons_not_ws {x : Char} {l : List Char} (hx : ¬ isReWs x = true) :
    matchWsBracket (x :: l) =
      (if (x == ']' || x == '}') = true then some ([], x, l) else none) := by
  unfold matchWsBracket
  rw [List.dropWhile_cons_of_neg hx, List.takeWhile_cons_of_neg hx]

theorem matchWsBracket_none_swap {a b : List Char} {c : Char}
    (hc : c = ']' ∨ c = '}')
    (h : matchWsBracket (a ++ c :: b) = none) :
    matchWsBracket (a ++ ',' :: c :: b) = none := by
  induction a with
  | nil =>
    exfalso
    unfold matchWsBracket at h
    rcases hc with hc | hc <;> subst hc <;> simp [List.dropWhile_cons, isReWs] at h
  | cons x a' ih =>
    rw [List.cons_append] at h ⊢
    by_cases hx : isReWs x
    · rw [matchWsBracket_cons_ws hx] at h ⊢
      exact ih h
    · rw [matchWsBracket_cons_not_ws hx] at h ⊢
      split at h
      · simp at h
      · rename_i hcond
        rw [if_neg hcond]

theorem fixTrailing_insert_comma {a b : List Char} {c : Char}
    (hc : c = ']' ∨ c = '}')
    (h : fixTrailing (a ++ c :: b) = a ++ c :: b) :
    fixTrailing (a ++ ',' :: c :: b) = a ++ c :: b := by
  induction a with
  | nil =>
    rw [List.nil_append] at h ⊢
    have hm : matchWsBracket (c :: b) = some ([], c, b) := by
      unfold matchWsBracket
      rcases hc with hx | hx <;> subst hx <;>
        simp [List.dropWhile_cons, List.takeWhile_cons, isReWs]
    have he : fixTrailing ((',' :: c :: b) : List Char) =
        (match matchWsBracket (c :: b) with
         | some _ => fixTrailing (c :: b)
         | none => ',' :: fixTrailing (c :: b)) := rfl
    rw [he, hm]
    simpa using h
  | cons x a' ih =>
    by_cases hx : x = ','
    · subst hx
      rw [List.cons_append] at h ⊢
      have he : fixTrailing ((',' :: (a' ++ c :: b)) : List Char) =
          (match matchWsBracket (a' ++ c :: b) with
           | some _ => fixTrailing (a' ++ c :: b)
           | none => ',' :: fixTrailing (a' ++ c :: b)) := rfl
      rw [he] at h
      rcases hmm : matchWsBracket (a' ++ c :: b) with _ | x
      · simp only [hmm] at h
        injection h with _ h
        have he2 : fixTrailing ((',' :: (a' ++ ',' :: c :: b)) : List Char) =
            (match matchWsBracket (a' ++ ',' :: c :: b) with
             | some _ => fixTrailing (a' ++ ',' :: c :: b)
             | none => ',' :: fixTrailing (a' ++ ',' :: c :: b)) := rfl
        rw [he2]
        simp only [matchWsBracket_none_swap hc hmm]
        exact congrArg (List.cons ',') (ih h)
      · exfalso
        simp only [hmm] at h
        have hl := fixTrailing_length_le (a' ++ c :: b)
        rw [h] at hl
        simp at hl
    · rw [List.cons_append, fixTrailing_cons_ne hx] at h ⊢
      injection h with _ h
      exact congrArg (List.cons x) (ih h)

/-- C8, counterexample: `{"a": ",]",}` is well-formed JSON apart from a
single trailing comma before the final `}` (removing it gives
`{"a": ",]"}`), yet extraction returns `{"a": "]"}`: the step-4 regex also
deleted the comma inside the quoted string, altering the document. -/
theorem c8_counterexample :
    jsonLoads "\x7b\"a\": \",]\"\x7d".toList = some (Json.obj [("a", Json.str ",]")]) ∧
    extract "\x7b\"a\": \",]\",\x7d".toList = .ok (Json.obj [("a", Json.str "]")]) ∧
    (",]" : String) ≠ "]" :=
  ⟨rfl, rfl, by decide⟩

/-- C8 (amended): take any text `a ++ c :: b` (with `c` a closing `]` or
`}`) that decodes as a JSON object document, contains no backtick and no
newline, starts with `{`, and on which the step-4 trailing-comma repair
acts as the identity (in particular its quoted strings contain no comma
followed only by whitespace and a closing bracket).  Inserting a single
comma immediately before `c` yields a text whose direct decoding fails and
on which `extract_json_from_llm_response` succeeds, returning exactly the
decoding of the original text — nothing besides the inserted comma is
repaired away. -/
theorem c8_single_trailing_comma {a b : List Char} {c : Char} {v : Json}
    (hc : c = ']' ∨ c = '}')
    (hbt : ('`' : Char) ∉ a ++ c :: b) (hnl : ('\n' : Char) ∉ a ++ c :: b)
    (hh : headIs (a ++ c :: b) '{' = true)
    (hfix : fixTrailing (a ++ c :: b) = a ++ c :: b)
    (hp : jsonLoads (a ++ c :: b) = some v)
    (hp2 : jsonLoads (a ++ ',' :: c :: b) = none) :
    extract (a ++ ',' :: c :: b) = .ok v := by
  have hnotmem : ∀ x : Char, x ≠ ',' → x ∉ a ++ c :: b → x ∉ a ++ ',' :: c :: b := by
    intro x hx hno hm
    apply hno
    simp only [List.mem_append, List.mem_cons] at hm ⊢
    rcases hm with hm | hm | hm | hm
    · exact Or.inl hm
    · exact absurd hm hx
    · exact Or.inr (Or.inl hm)
    · exact Or.inr (Or.inr hm)
  have hbt' : ('`' : Char) ∉ a ++ ',' :: c :: b := hnotmem _ (by decide) hbt
  have hnl' : ('\n' : Char) ∉ a ++ ',' :: c :: b := hnotmem _ (by decide) hnl
  have hnlt : ('\n' : Char) ∉ a ++ c :: b := hnl
  have hh' : headIs (a ++ ',' :: c :: b) '{' = true := by
    rcases a with _ | ⟨x, a''⟩
    · exfalso
      rcases hc with hx | hx <;> subst hx <;> simp [headIs] at hh
    · simpa [headIs] using hh
  have h1 : fenceStrip (a ++ ',' :: c :: b) = a ++ ',' :: c :: b :=
    fenceStrip_eq_self hbt'
  have h2 : braceTrim (a ++ ',' :: c :: b) = a ++ ',' :: c :: b :=
    braceTrim_eq_self_of_head hh'
  have hfx : fixAll (a ++ ',' :: c :: b) = a ++ c :: b := by
    unfold fixAll
    rw [fixTrailing_insert_comma hc hfix, fixNlStr_eq_self hnlt,
      fixDigitNl_eq_self hnlt, fixLitNl_eq_self hnlt]
  simp [extract, h1, h2, hp2, hfx, hp]

/-- C8, witness: inserting the trailing comma into `{"a": [1]}` (giving
`{"a": [1,]}`) is repaired back to exactly the original decoding. -/
theorem c8_single_trailing_comma_witness :
    extract ("\x7b\"a\": [1".toList ++ ',' :: ']' :: "\x7d".toList) =
      .ok (Json.obj [("a", Json.arr [Json.num 1])]) :=
  c8_single_trailing_comma (Or.inl rfl) (by decide) (by decide) (by decide)
    rfl rfl rfl

theorem tryGroupLoop_wrap {s : List Char} (hbt : ('`' : Char) ∉ s) (acc : List Char) :
    tryGroupLoop (s ++ '\n' :: '`' :: '`' :: '`' :: []) acc = some (acc.reverse ++ s) := by
  induction s generalizing acc with
  | nil =>
    show tryGroupLoop ('\n' :: '`' :: '`' :: '`' :: []) acc = some (acc.reverse ++ [])
    simp [tryGroupLoop, closesHere, tripleHead]
  | cons c s' ih =>
    have hc : c ≠ '`' := fun he => hbt (he ▸ List.mem_cons_self _ _)
    have hs' : ('`' : Char) ∉ s' := fun hm => hbt (List.mem_cons_of_mem _ hm)
    have hclose : closesHere (c :: (s' ++ '\n' :: '`' :: '`' :: '`' :: [])) = false := by
      unfold closesHere
      have h1 : tripleHead (c :: (s' ++ '\n' :: '`' :: '`' :: '`' :: [])) = false :=
        tripleHead_eq_false hc
      have h2 : (match c :: (s' ++ '\n' :: '`' :: '`' :: '`' :: []) with
          | '\n' :: t2 => tripleHead t2
          | _ => false) = false := by
        split
        · rename_i t2 heq
          injection heq with hceq hteq
          rw [← hteq]
          rcases s' with _ | ⟨d, s''⟩
          · rfl
          · exact tripleHead_eq_false fun he => hs' (he ▸ List.mem_cons_self _ _)
        · rfl
      rw [h2, h1]
      rfl
    rw [show tryGroupLoop ((c :: s') ++ '\n' :: '`' :: '`' :: '`' :: []) acc =
        (if closesHere (c :: (s' ++ '\n' :: '`' :: '`' :: '`' :: [])) then some acc.reverse
         else tryGroupLoop (s' ++ '\n' :: '`' :: '`' :: '`' :: []) (c :: acc)) from rfl]
    rw [hclose]
    simp only [Bool.false_eq_true, if_false, ih hs' (c :: acc), List.reverse_cons,
      List.append_assoc, List.singleton_append]

theorem stripL_eq_self {t : List Char} (h1 : headIs t '{' = true)
    (h2 : t.getLast? = some '}') : stripL t = t := by
  unfold stripL
  rcases t with _ | ⟨c, r⟩
  · simp [headIs] at h1
  · have hc : c = '{' := by simpa [headIs] using h1
    subst hc
    rw [List.dropWhile_cons_of_neg (by decide)]
    rcases hrev : ('{' :: r).reverse with _ | ⟨d, rr⟩
    · exfalso
      simpa using congrArg List.length hrev
    · have hd : d = '}' := by
        have hh := List.head?_reverse ('{' :: r)
        rw [hrev, h2] at hh
        simpa using hh
      subst hd
      have hdw : List.dropWhile isReWs ('}' :: rr) = '}' :: rr :=
        List.dropWhile_cons_of_neg (by decide)
      rw [hdw, ← hrev, List.reverse_reverse]

theorem attemptAfter_wrap {S : List Char} (hbt : ('`' : Char) ∉ S)
    (hh : headIs S '{' = true) :
    attemptAfter ('\n' :: (S ++ '\n' :: '`' :: '`' :: '`' :: [])) = some S := by
  obtain ⟨S', rfl⟩ : ∃ S', S = '{' :: S' := by
    rcases S with _ | ⟨x, S'⟩
    · simp [headIs] at hh
    · have hx : x = '{' := by simpa [headIs] using hh
      exact ⟨S', by rw [hx]⟩
  unfold attemptAfter
  have htw : (('\n' :: ('{' :: S' ++ '\n' :: '`' :: '`' :: '`' :: [])).takeWhile isReWs).length
      = 1 := by
    rw [List.takeWhile_cons_of_pos (by decide), List.cons_append,
      List.takeWhile_cons_of_neg (by decide)]
    rfl
  rw [htw]
  have htn : tryNl ('{' :: (S' ++ '\n' :: '`' :: '`' :: '`' :: [])) = some ('{' :: S') := by
    show tryGroupLoop ('{' :: (S' ++ '\n' :: '`' :: '`' :: '`' :: [])) [] = some ('{' :: S')
    have := tryGroupLoop_wrap hbt []
    simpa using this
  show (match tryNl (('\n' :: ('{' :: S' ++ '\n' :: '`' :: '`' :: '`' :: [])).drop 1) with
        | some g => some g
        | none => tryWsLoop 0 ('\n' :: ('{' :: S' ++ '\n' :: '`' :: '`' :: '`' :: []))) =
      some ('{' :: S')
  simp only [List.drop_succ_cons, List.drop_zero, List.cons_append, htn]

theorem fenceSearch_wrap {S : List Char} (hbt : ('`' : Char) ∉ S)
    (hh : headIs S '{' = true) : fenceSearch (wrapFence S) = some S := by
  have ham : attemptMatch (wrapFence S) = some S := by
    show (match attemptAfter ('\n' :: (S ++ '\n' :: '`' :: '`' :: '`' :: [])) with
          | some g => some g
          | none => attemptAfter ('j' :: 's' :: 'o' :: 'n' :: '\n' ::
              (S ++ '\n' :: '`' :: '`' :: '`' :: []))) = some S
    rw [attemptAfter_wrap hbt hh]
  show (match attemptMatch (wrapFence S) with
        | some g => some g
        | none => fenceSearch ('`' :: '`' :: 'j' :: 's' :: 'o' :: 'n' :: '\n' ::
            (S ++ '\n' :: '`' :: '`' :: '`' :: []))) = some S
  rw [ham]

theorem fenceStrip_wrap {S : List Char} (hbt : ('`' : Char) ∉ S)
    (hh : headIs S '{' = true) (hl : S.getLast? = some '}') :
    fenceStrip (wrapFence S) = S := by
  unfold fenceStrip
  have hct : containsTriple (wrapFence S) = true := rfl
  simp only [hct, if_true, fenceSearch_wrap hbt hh, stripL_eq_self hh hl]

/-- C9, counterexample: for the value `{"a": "```"}` (whose serialization
contains backticks), wrapping the serialization in a ` ```json ` fence and
extracting does *not* return the value: the fence regex's lazy group stops
at the backticks inside the string, the remnant `{"a": "` is unparseable
and unrepairable, and extraction raises. -/
theorem c9_counterexample :
    jsonLoads "\x7b\"a\": \"```\"\x7d".toList = some (Json.obj [("a", Json.str "```")]) ∧
    extract (wrapFence "\x7b\"a\": \"```\"\x7d".toList) =
      .error (wrapFence "\x7b\"a\": \"```\"\x7d".toList) :=
  ⟨rfl, rfl⟩

/-- C9 (amended): for every value `v` and every well-formed JSON object
text `S` decoding to `v` that contains no backtick, starts with `{` and
ends with `}` (every `json.dumps` serialization of an object whose strings
avoid backticks has this shape), extraction of the fenced wrapping
` ```json\n S \n``` ` returns exactly `v` — the round trip through
serialization, fencing and extraction is the identity on this fragment. -/
theorem c9_fenced_roundtrip {S : List Char} {v : Json}
    (hbt : ('`' : Char) ∉ S) (hh : headIs S '{' = true) (hl : S.getLast? = some '}')
    (hp : jsonLoads S = some v) :
    extract (wrapFence S) = .ok v := by
  have h1 := fenceStrip_wrap hbt hh hl
  have h2 := braceTrim_eq_self_of_head hh
  simp [extract, h1, h2, hp]

/-- C9, witness: the amended theorem applied to `{"a": 1}`. -/
theorem c9_fenced_roundtrip_witness :
    extract (wrapFence "\x7b\"a\": 1\x7d".toList) = .ok (Json.obj [("a", Json.num 1)]) :=
  c9_fenced_roundtrip (by decide) (by decide) (by decide) rfl

/-! ### Batch status -/

/-- C10: a batch id whose job query returns zero jobs reports total 0,
progress 0, zero completed and failed counts, an empty jobs list, and
`all_completed = true` — an unknown or empty batch reads as fully
completed (`0 + 0 == 0`). -/
theorem c10_empty_batch {db : DB} {batchId : String}
    (h : db.jobs.filter (fun r => lookupKey "batch_id" r == some (Val.s batchId)) = []) :
    getBatchStatus db batchId = ⟨batchId, 0, 0, 0, 0, true, []⟩ := by
  simp [getBatchStatus, h]

/-- C10, witness: the empty store. -/
theorem c10_empty_batch_witness :
    getBatchStatus ⟨[], [], [], [], [], [], 0⟩ "b0" = ⟨"b0", 0, 0, 0, 0, true, []⟩ :=
  c10_empty_batch rfl

/-- C3, counterexample: a batch of exactly 3 jobs, 2 completed and 1
failed.  `all_completed` is true, but `overall_progress` is 66.67 (the
failed job contributes 0 to the weighted sum, so `round(200/3, 2)`), not
the 100.0 the claim states. -/
theorem c3_counterexample :
    (getBatchStatus ⟨[], [], [], [],
        [[("batch_id", Val.s "b1"), ("status", Val.s "completed"),
          ("node_id", Val.s "n1"), ("progress_percent", Val.i 40)],
         [("batch_id", Val.s "b1"), ("status", Val.s "completed"),
          ("node_id", Val.s "n2"), ("progress_percent", Val.i 0)],
         [("batch_id", Val.s "b1"), ("status", Val.s "failed"),
          ("node_id", Val.s "n3"), ("progress_percent", Val.i 0)]], [], 0⟩ "b1").allCompleted
        = true ∧
    (getBatchStatus ⟨[], [], [], [],
        [[("batch_id", Val.s "b1"), ("status", Val.s "completed"),
          ("node_id", Val.s "n1"), ("progress_percent", Val.i 40)],
         [("batch_id", Val.s "b1"), ("status", Val.s "completed"),
          ("node_id", Val.s "n2"), ("progress_percent", Val.i 0)],
         [("batch_id", Val.s "b1"), ("status", Val.s "failed"),
          ("node_id", Val.s "n3"), ("progress_percent", Val.i 0)]], [], 0⟩
          "b1").overallProgressCenti = 6667 ∧
    (6667 : Int) ≠ 10000 :=
  ⟨rfl, rfl, by decide⟩

/-- C3 (amended): for every batch whose jobs are exactly 3 in number, 2
completed and 1 failed (in any order, with any progress fields),
`get_batch_status` returns `all_completed = true` and
`overall_progress = 66.67`: under the weighted average completed
contributes 100, processing its own percent, and everything else —
including failed — contributes 0, so the total is `round(200/3, 2)`, not
100.0. -/
theorem c3_two_completed_one_failed {db : DB} {batchId : String}
    (hperm : ((db.jobs.filter
        (fun r => lookupKey "batch_id" r == some (Val.s batchId))).map statusOf).Perm
      ["completed", "completed", "failed"]) :
    (getBatchStatus db batchId).allCompleted = true ∧
    (getBatchStatus db batchId).overallProgressCenti = 6667 := by
  have hlen : (db.jobs.filter
      (fun r => lookupKey "batch_id" r == some (Val.s batchId))).length = 3 := by
    have hl := hperm.length_eq
    simpa using hl
  have hcomp : ((db.jobs.filter
      (fun r => lookupKey "batch_id" r == some (Val.s batchId))).filter
        (fun r => statusOf r == "completed")).length = 2 := by
    rw [← List.countP_eq_length_filter]
    have h1 : (db.jobs.filter
        (fun r => lookupKey "batch_id" r == some (Val.s batchId))).countP
          (fun r => statusOf r == "completed") =
        ((db.jobs.filter
          (fun r => lookupKey "batch_id" r == some (Val.s batchId))).map statusOf).countP
            (fun s => s == "completed") := by
      rw [List.countP_map]
      rfl
    rw [h1, hperm.countP_eq]
    decide
  have hfail : ((db.jobs.filter
      (fun r => lookupKey "batch_id" r == some (Val.s batchId))).filter
        (fun r => statusOf r == "failed")).length = 1 := by
    rw [← List.countP_eq_length_filter]
    have h1 : (db.jobs.filter
        (fun r => lookupKey "batch_id" r == some (Val.s batchId))).countP
          (fun r => statusOf r == "failed") =
        ((db.jobs.filter
          (fun r => lookupKey "batch_id" r == some (Val.s batchId))).map statusOf).countP
            (fun s => s == "failed") := by
      rw [List.countP_map]
      rfl
    rw [h1, hperm.countP_eq]
    decide
  have hsum : ((db.jobs.filter
      (fun r => lookupKey "batch_id" r == some (Val.s batchId))).map jobWeight).sum = 200 := by
    have hmem : ∀ r ∈ db.jobs.filter
        (fun r => lookupKey "batch_id" r == some (Val.s batchId)),
        statusOf r = "completed" ∨ statusOf r = "failed" := by
      intro r hr
      have hm : statusOf r ∈ ["completed", "completed", "failed"] :=
        hperm.mem_iff.mp (List.mem_map_of_mem _ hr)
      simpa using hm
    have hcongr : (db.jobs.filter
        (fun r => lookupKey "batch_id" r == some (Val.s batchId))).map jobWeight =
        ((db.jobs.filter
          (fun r => lookupKey "batch_id" r == some (Val.s batchId))).map statusOf).map
            (fun s => if s = "completed" then (100 : Int) else 0) := by
      rw [List.map_map]
      apply List.map_congr_left
      intro r hr
      rcases hmem r hr with hx | hx <;> simp [jobWeight, hx]
    rw [hcongr, (hperm.map (fun s => if s = "completed" then (100 : Int) else 0)).sum_eq]
    decide
  refine ⟨?_, ?_⟩
  · simp only [getBatchStatus]
    rw [hcomp, hfail, hlen]
    rfl
  · simp only [getBatchStatus]
    rw [hlen, hsum]
    rfl

/-- C3, witness: the amended theorem at a concrete 3-job batch (using the
same job records as the counterexample). -/
theorem c3_two_completed_one_failed_witness :
    (getBatchStatus ⟨[], [], [], [],
        [[("batch_id", Val.s "b1"), ("status", Val.s "completed"),
          ("node_id", Val.s "n1"), ("progress_percent", Val.i 40)],
         [("batch_id", Val.s "b1"), ("status", Val.s "failed"),
          ("node_id", Val.s "n2"), ("progress_percent", Val.i 0)],
         [("batch_id", Val.s "b1"), ("status", Val.s "completed"),
          ("node_id", Val.s "n3"), ("progress_percent", Val.i 7)]], [], 0⟩
        "b1").overallProgressCenti = 6667 :=
  (c3_two_completed_one_failed (by decide)).2

/-! ### Path acceptance: counting and skipping invariants -/

theorem foldl_preserve {α σ : Type _} (P : σ → Prop) {step : σ → α → σ}
    (h : ∀ s a, P s → P (step s a)) :
    ∀ (l : List α) (s : σ), P s → P (l.foldl step s) := by
  intro l
  induction l with
  | nil => intro s hs; exact hs
  | cons a l ih =>
    intro s hs
    exact ih _ (h s a hs)

theorem createChapterNode_isChapter (db : DB) (n : PathNode) (pid did : String) :
    (createChapterNode db n pid did).1.isChapter = true := by
  unfold createChapterNode
  dsimp only
  split <;> rfl

theorem processL1_jobs_chapters {domainId : String} {st : AccState} {n : PathNode}
    (h : st.jobs.length = (st.created.filter CreatedEntry.isChapter).length) :
    (processL1 domainId st n).jobs.length =
      ((processL1 domainId st n).created.filter CreatedEntry.isChapter).length := by
  unfold processL1
  split
  · split
    · split
      · exact h
      · exact h
    · exact h
  · have hcourse : (createCourseNode st.db n domainId).1.isChapter = false := rfl
    dsimp only
    rw [List.filter_append, List.length_append]
    simp [List.filter, hcourse, h]

theorem processL2_jobs_chapters {domainId batchId pathId : String} {st : AccState}
    {n : PathNode}
    (h : st.jobs.length = (st.created.filter CreatedEntry.isChapter).length) :
    (processL2 domainId batchId pathId st n).jobs.length =
      ((processL2 domainId batchId pathId st n).created.filter CreatedEntry.isChapter).length := by
  unfold processL2
  split
  · exact h
  · split
    · exact h
    · dsimp only
      rw [List.filter_append, List.length_append, List.length_append]
      simp [List.filter, createChapterNode_isChapter, h]

/-- C7: in every successful `accept_path` call, the generation jobs are in
one-to-one correspondence with the created level-2 (chapter) nodes —
created level-1 nodes yield none — and the returned totals are the lengths
of the returned lists; in particular, for a submission with one level-1
node (`is_existing = false`) and two level-2 children referencing it, the
result has exactly 2 `generation_jobs` entries and 0 `skipped_nodes`
entries. -/
theorem c7_one_job_per_chapter :
    (∀ pd domain batchId db res db2,
        acceptPath pd domain batchId db = .ok (res, db2) →
        res.generationJobs.length =
          (res.createdNodes.filter CreatedEntry.isChapter).length ∧
        res.totalJobs = res.generationJobs.length ∧
        res.totalNewNodes = res.createdNodes.length) ∧
    (demoAccept.map (fun p =>
        (p.1.generationJobs.length, p.1.skippedNodes.length,
         p.1.totalNewNodes, p.1.totalJobs)) = .ok (2, 0, 3, 2)) := by
  constructor
  · intro pd domain batchId db res db2 h
    unfold acceptPath at h
    split at h
    · simp at h
    · split at h
      · simp only [Prod.mk.injEq, Except.ok.injEq] at h
        obtain ⟨hres, hdb⟩ := h
        subst hres
        refine ⟨?_, rfl, rfl⟩
        exact foldl_preserve
          (fun (st : AccState) =>
            st.jobs.length = (st.created.filter CreatedEntry.isChapter).length)
          (fun s a hs => processL2_jobs_chapters hs) _ _
          (foldl_preserve
            (fun (st : AccState) =>
              st.jobs.length = (st.created.filter CreatedEntry.isChapter).length)
            (fun s a hs => processL1_jobs_chapters hs) _ _ rfl)
      · simp at h
  · rfl

/-- C7, witness: the general part applied to the demo submission (one new
course, two chapters under it). -/
theorem c7_one_job_per_chapter_witness :
    demoRes.generationJobs.length =
      (demoRes.createdNodes.filter CreatedEntry.isChapter).length :=
  (c7_one_job_per_chapter.1 demoPath "d1" "b1" demoDb demoRes demoDb2 rfl).1

theorem foldl_preserve_mem {α σ : Type _} (P : σ → Prop) {step : σ → α → σ} :
    ∀ (l : List α) (s : σ), (∀ s a, a ∈ l → P s → P (step s a)) → P s →
      P (l.foldl step s) := by
  intro l
  induction l with
  | nil => intro s _ hs; exact hs
  | cons a l ih =>
    intro s h hs
    exact ih _ (fun s' a' ha' => h s' a' (List.mem_cons_of_mem _ ha'))
      (h s a (List.mem_cons_self _ _) hs)

theorem processL2_skipped_mono {domainId batchId pathId : String} {st : AccState}
    {n : PathNode} {e : SkipEntry} (h : e ∈ st.skipped) :
    e ∈ (processL2 domainId batchId pathId st n).skipped := by
  unfold processL2
  split
  · exact List.mem_append_left _ h
  · split
    · exact List.mem_append_left _ h
    · exact h

theorem processL1_mapping_keys {domainId : String} {st : AccState} {n : PathNode}
    {N : List String} (hm : ∀ p ∈ st.mapping, p.1 ∈ N) (hn : n.id ∈ N) :
    ∀ p ∈ (processL1 domainId st n).mapping, p.1 ∈ N := by
  unfold processL1
  split
  · split
    · split
      · intro p hp
        rcases List.mem_cons.mp hp with heq | hmem
        · rw [heq]
          exact hn
        · exact hm p hmem
      · exact hm
    · exact hm
  · intro p hp
    rcases List.mem_cons.mp hp with heq | hmem
    · rw [heq]
      exact hn
    · exact hm p hmem

theorem processL2_mapping_keys {domainId batchId pathId : String} {st : AccState}
    {n : PathNode} {N : List String}
    (hm : ∀ p ∈ st.mapping, p.1 ∈ N) (hn : n.id ∈ N) :
    ∀ p ∈ (processL2 domainId batchId pathId st n).mapping, p.1 ∈ N := by
  unfold processL2
  split
  · exact hm
  · split
    · exact hm
    · intro p hp
      rcases List.mem_cons.mp hp with heq | hmem
      · rw [heq]
        exact hn
      · exact hm p hmem

theorem lookupMapping_none {m : List (String × String)} {pid : Option String}
    {N : List String} (hm : ∀ p ∈ m, p.1 ∈ N)
    (hp : ∀ pk, pid = some pk → pk ∉ N) :
    lookupMapping m pid = none := by
  rcases pid with _ | pk
  · rfl
  · rcases hf : m.find? (fun p => p.1 == pk) with _ | p
    · simp [lookupMapping, hf]
    · exfalso
      have hmem := List.mem_of_find?_eq_some hf
      have hpk : p.1 = pk := by simpa using List.find?_some hf
      exact hp pk rfl (hpk ▸ hm p hmem)

theorem foldl_L2_contains_skip {domainId batchId pathId : String} {N : List String} :
    ∀ (l : List PathNode) (st : AccState),
      (∀ p ∈ st.mapping, p.1 ∈ N) →
      (∀ m ∈ l, m.id ∈ N) →
      ∀ n ∈ l, n.isExisting = false →
        (∀ pk, n.parentId = some pk → pk ∉ N) →
        (⟨n.id, n.name, "parent_not_found"⟩ : SkipEntry) ∈
          (l.foldl (processL2 domainId batchId pathId) st).skipped := by
  intro l
  induction l with
  | nil =>
    intro st _ _ n hn
    exact absurd hn (List.not_mem_nil n)
  | cons m l' ih =>
    intro st hkeys hids n hn hex hpar
    rcases List.mem_cons.mp hn with heq | hmem
    · subst heq
      have hlook : lookupMapping st.mapping n.parentId = none :=
        lookupMapping_none hkeys hpar
      have hstep : processL2 domainId batchId pathId st n =
          { st with skipped := st.skipped ++ [⟨n.id, n.name, "parent_not_found"⟩] } := by
        unfold processL2
        rw [if_neg (by simp [hex]), hlook]
      rw [List.foldl_cons, hstep]
      refine foldl_preserve (fun (st : AccState) =>
          (⟨n.id, n.name, "parent_not_found"⟩ : SkipEntry) ∈ st.skipped)
        (fun s a hs => processL2_skipped_mono hs) l' _ ?_
      exact List.mem_append_right _ (by simp)
    · have hkeys' : ∀ p ∈ (processL2 domainId batchId pathId st m).mapping, p.1 ∈ N :=
        processL2_mapping_keys hkeys (hids m (List.mem_cons_self _ _))
      exact ih _ hkeys' (fun x hx => hids x (List.mem_cons_of_mem _ hx)) n hmem hex hpar

/-- C6, counterexample: submit A (level 1), B (level 2, parent A) and C
(level 2, parent B).  C's `parent_id` names a level-2 node, so it does not
resolve through the mapping built from the level-1 pass — yet `accept_path`
*creates* C (the running `node_id_mapping` also receives level-2 entries)
and skips nothing, contradicting the claim that C is skipped with
`parent_not_found` and gets no records. -/
theorem c6_counterexample :
    (acceptPath chainPath "d1" "b1" demoDb).map
      (fun p => (p.1.skippedNodes, p.1.createdNodes.map CreatedEntry.pathNodeId)) =
      .ok ([], ["A", "B", "C"]) ∧
    chainN3.parentId = some "B" ∧
    demoN2.id = "B" ∧ demoN2.level = 2 ∧
    (∀ m ∈ chainPath.nodes, m.level = 1 → m.id ≠ "B") :=
  ⟨rfl, rfl, rfl, rfl, by decide⟩

/-- C6 (amended): a level-2 node with `is_existing = false` is skipped
with reason `parent_not_found` — and its processing step changes nothing
else: no map-node, chapter or job insert, no created or job entry, no
mapping update — exactly when its `parent_id` fails to resolve in the
`node_id_mapping` *as accumulated at the time the node is processed*,
which contains the level-1 pass's entries *and* every earlier created
level-2 node.  In particular a level-2 node whose `parent_id` matches no
submitted node's id at all is always recorded as skipped with
`parent_not_found`. -/
theorem c6_parent_not_found :
    (∀ (domainId batchId pathId : String) (st : AccState) (n : PathNode),
        n.isExisting = false →
        lookupMapping st.mapping n.parentId = none →
        processL2 domainId batchId pathId st n =
          { st with skipped := st.skipped ++ [⟨n.id, n.name, "parent_not_found"⟩] }) ∧
    (∀ pd domain batchId db res db2 (n : PathNode),
        acceptPath pd domain batchId db = .ok (res, db2) →
        n ∈ pd.nodes → n.level = 2 → n.isExisting = false →
        (∀ pk, n.parentId = some pk → ∀ m ∈ pd.nodes, m.id ≠ pk) →
        (⟨n.id, n.name, "parent_not_found"⟩ : SkipEntry) ∈ res.skippedNodes) := by
  constructor
  · intro domainId batchId pathId st n hex hlook
    unfold processL2
    rw [if_neg (by simp [hex]), hlook]
  · intro pd domain batchId db res db2 n h hmem hlvl hex hpar
    unfold acceptPath at h
    split at h
    · simp at h
    · split at h
      · rename_i od dinfo heqd ov cid heqk
        simp only [Prod.mk.injEq, Except.ok.injEq] at h
        obtain ⟨hres, hdb⟩ := h
        subst hres
        have hkeys1 : ∀ p ∈ ((pd.nodes.filter (fun m => m.level == 1)).foldl
            (processL1 cid) ⟨db, [], [], [], []⟩).mapping, p.1 ∈ pd.nodes.map PathNode.id := by
          refine foldl_preserve_mem
            (fun (st : AccState) => ∀ p ∈ st.mapping, p.1 ∈ pd.nodes.map PathNode.id)
            _ _ ?_ (by intro p hp; exact absurd hp (List.not_mem_nil p))
          intro s a ha hs
          exact processL1_mapping_keys hs
            (List.mem_map_of_mem _ (List.mem_filter.mp ha).1)
        refine foldl_L2_contains_skip _ _ hkeys1
          (fun m hm => List.mem_map_of_mem _ (List.mem_filter.mp hm).1)
          n (List.mem_filter.mpr ⟨hmem, by simp [hlvl]⟩) hex ?_
        intro pk hpk hin
        rcases List.mem_map.mp hin with ⟨m, hm, hid⟩
        exact hpar pk hpk m hm hid
      · simp at h

/-- C6, witness: the step theorem applied to a level-2 node whose parent
reference resolves to nothing. -/
theorem c6_parent_not_found_witness :
    processL2 "d1" "b1" "p1" ⟨demoDb, [], [], [], []⟩
        ⟨"X", "Chapter X", "x", 2, some "ZZ", false, "beginner", 2⟩ =
      { (⟨demoDb, [], [], [], []⟩ : AccState) with
          skipped := [] ++ [⟨"X", "Chapter X", "parent_not_found"⟩] } :=
  c6_parent_not_found.1 "d1" "b1" "p1" _ _ rfl rfl

theorem processL1_log_inv {domainId : String} {st : AccState} {n : PathNode} :
    ∀ e ∈ (processL1 domainId st n).db.insertLog,
      e ∈ st.db.insertLog ∨
      (e.1 ≠ "content_generation_jobs" ∧ lookupKey "batch_id" e.2 = none) := by
  intro e he
  unfold processL1 at he
  split at he
  · split at he
    · split at he
      · exact Or.inl he
      · exact Or.inl he
    · exact Or.inl he
  · simp only [createCourseNode, insertMapNode, insertCourse, updateMapNode,
      List.mem_cons] at he
    rcases he with he | he | he
    · subst he
      exact Or.inr ⟨(by decide : ("courses" : String) ≠ "content_generation_jobs"), rfl⟩
    · subst he
      exact Or.inr ⟨(by decide : ("map_nodes" : String) ≠ "content_generation_jobs"), rfl⟩
    · exact Or.inl he

theorem createChapterNode_log {db : DB} {n : PathNode} {pid did : String} :
    ∀ e ∈ (createChapterNode db n pid did).2.2.insertLog,
      e ∈ db.insertLog ∨
      (e.1 ≠ "content_generation_jobs" ∧ lookupKey "batch_id" e.2 = none) := by
  intro e he
  unfold createChapterNode at he
  dsimp only at he
  split at he
  · simp only [insertChapter, insertMapNode, List.mem_cons] at he
    rcases he with he | he | he
    · subst he
      exact Or.inr ⟨(by decide : ("chapters" : String) ≠ "content_generation_jobs"), rfl⟩
    · subst he
      exact Or.inr ⟨(by decide : ("map_nodes" : String) ≠ "content_generation_jobs"), rfl⟩
    · exact Or.inl he
  · simp only [insertMapNode, List.mem_cons] at he
    rcases he with he | he
    · subst he
      exact Or.inr ⟨(by decide : ("map_nodes" : String) ≠ "content_generation_jobs"), rfl⟩
    · exact Or.inl he

theorem createGenerationJob_log {db : DB}
    {mid nm did batchId pathId pnid : String} :
    ∀ e ∈ (createGenerationJob db mid nm did batchId pathId pnid).2.insertLog,
      e ∈ db.insertLog ∨
      (e.1 = "content_generation_jobs" ∧
        lookupKey "batch_id" e.2 = some (Val.s batchId)) := by
  intro e he
  unfold createGenerationJob at he
  dsimp only at he
  simp only [insertJob, updateMapNode, List.mem_cons] at he
  rcases he with he | he
  · subst he
    exact Or.inr ⟨rfl, rfl⟩
  · exact Or.inl he

theorem processL2_log_inv {domainId batchId pathId : String} {st : AccState}
    {n : PathNode} :
    ∀ e ∈ (processL2 domainId batchId pathId st n).db.insertLog,
      e ∈ st.db.insertLog ∨
      (e.1 = "content_generation_jobs" ∧
        lookupKey "batch_id" e.2 = some (Val.s batchId)) ∨
      (e.1 ≠ "content_generation_jobs" ∧ lookupKey "batch_id" e.2 = none) := by
  intro e he
  unfold processL2 at he
  split at he
  · exact Or.inl he
  · split at he
    · exact Or.inl he
    · dsimp only at he
      rcases createGenerationJob_log e he with hin | hjob
      · rcases createChapterNode_log e hin with hold | hnode
        · exact Or.inl hold
        · exact Or.inr (Or.inr hnode)
      · exact Or.inr (Or.inl hjob)

/-- C2, counterexample: accepting a path with a single fresh level-1 node
performs a `map_nodes` insert and a `courses` insert; *neither* inserted
dictionary carries a `batch_id` key (the batch id is passed to
`_create_course_node` but never written into `node_data`), so the claim
that every created node record carries the batch id is false. -/
theorem c2_counterexample :
    (acceptPath ⟨some "p1", some "Course only", [demoN1]⟩ "d1" "b1" demoDb).map
      (fun p => p.2.insertLog.map (fun e => (e.1, lookupKey "batch_id" e.2))) =
      .ok [("courses", none), ("map_nodes", none)] ∧
    (none : Option Val) ≠ some (Val.s "b1") :=
  ⟨rfl, by decide⟩

/-- C2 (amended): in every successful `accept_path` call, every insert
performed into `content_generation_jobs` carries that call's `batch_id`,
and every other insert the call performs (`map_nodes`, `courses`,
`chapters`) carries no `batch_id` key at all — the batch identifier is
persisted only on the generation-job records. -/
theorem c2_batch_id_on_jobs_only {pd : PathData} {domain batchId : String}
    {db : DB} {res : AcceptResult} {db2 : DB}
    (h : acceptPath pd domain batchId db = .ok (res, db2)) :
    ∀ e ∈ db2.insertLog,
      e ∈ db.insertLog ∨
      (e.1 = "content_generation_jobs" ∧
        lookupKey "batch_id" e.2 = some (Val.s batchId)) ∨
      (e.1 ≠ "content_generation_jobs" ∧ lookupKey "batch_id" e.2 = none) := by
  unfold acceptPath at h
  split at h
  · simp at h
  · split at h
    · rename_i od dinfo heqd ov cid heqk
      simp only [Prod.mk.injEq, Except.ok.injEq] at h
      obtain ⟨hres, hdb⟩ := h
      subst hdb
      exact foldl_preserve
        (fun (st : AccState) => ∀ e ∈ st.db.insertLog,
          e ∈ db.insertLog ∨
          (e.1 = "content_generation_jobs" ∧
            lookupKey "batch_id" e.2 = some (Val.s batchId)) ∨
          (e.1 ≠ "content_generation_jobs" ∧ lookupKey "batch_id" e.2 = none))
        (fun s a hs e he => by
          rcases processL2_log_inv e he with hin | hjob | hnode
          · exact hs e hin
          · exact Or.inr (Or.inl hjob)
          · exact Or.inr (Or.inr hnode))
        _ _
        (foldl_preserve
          (fun (st : AccState) => ∀ e ∈ st.db.insertLog,
            e ∈ db.insertLog ∨
            (e.1 = "content_generation_jobs" ∧
              lookupKey "batch_id" e.2 = some (Val.s batchId)) ∨
            (e.1 ≠ "content_generation_jobs" ∧ lookupKey "batch_id" e.2 = none))
          (fun s a hs e he => by
            rcases processL1_log_inv e he with hin | hnode
            · exact hs e hin
            · exact Or.inr (Or.inr hnode))
          _ _
          (fun e he => Or.inl he))
    · simp at h

/-- C2, witness: the amended theorem at the demo acceptance, instantiated
at the `courses` insert it performs. -/
theorem c2_batch_id_on_jobs_only_witness :
    ("courses", courseData demoN1 "d1") ∈ demoDb2.insertLog ∧
    (("courses", courseData demoN1 "d1") ∈ demoDb.insertLog ∨
     (("courses", courseData demoN1 "d1").1 = "content_generation_jobs" ∧
        lookupKey "batch_id" ("courses", courseData demoN1 "d1").2 =
          some (Val.s "b1")) ∨
     (("courses", courseData demoN1 "d1").1 ≠ "content_generation_jobs" ∧
        lookupKey "batch_id" ("courses", courseData demoN1 "d1").2 = none)) :=
  ⟨by decide, @c2_batch_id_on_jobs_only demoPath "d1" "b1" demoDb demoRes demoDb2 rfl _ (by decide)⟩

example : jsonLoads "null".toList = some Json.null := rfl
example : jsonLoads "\x7b\"a\": 1\x7d".toList = some (Json.obj [("a", Json.num 1)]) := rfl
example : jsonLoads "[1, 2]".toList = some (Json.arr [Json.num 1, Json.num 2]) := rfl
example : jsonLoads "\x7b\"a\": [1,]\x7d".toList = none := rfl
example : jsonLoads "hello".toList = none := rfl
example : jsonLoads " \"x,]\" ".toList = some (Json.str "x,]") := rfl

end Course
